import Mathlib

set_option maxRecDepth 16000

set_option maxHeartbeats 2000000

/-!
Verification development for the AxoGraph binary-format decoder
(`neo/rawio/axographrawio.py`).

The Python source is shallowly embedded: the seekable byte stream becomes an
explicit `ByteStream` value, fallible reads return `Except Err`, machine
integers are `Int` with explicit signed reinterpretation of the raw bytes, and
IEEE-754 float payloads are decoded exactly into an unreduced fraction type
`Frac` (numerator/denominator over `Int`).  `Frac` is used instead of `Rat`
so that every definition evaluates inside the kernel; equality of Python/numpy
floats is modelled by cross-multiplication (`Frac.valEq`), used exactly where
the source compares float values.  Text is kept as the raw list of decoded
code units.  Infinities and NaN payloads are outside the scope of the claims
and are decoded as 0.
-/

namespace Axograph

/-- Failure modes of the decoder.  Each constructor corresponds to a concrete
Python exception raised by the source: `truncated` to a `struct.error` or
`numpy` mapping error on a short read, `notAxograph` and `versionMismatch` and
`trailingBytes` and `fontSettingFailed` and `groupCountMismatch` to
`AssertionError`s, the `unimplemented*` constructors to `NotImplementedError`s,
`nameError` to the `NameError` on an unbound `t_start`/`sampling_period`,
`zeroDivision` to `ZeroDivisionError`, `indexError` to `IndexError`,
`badUtf16` to `UnicodeDecodeError`, and `valueError` to a numpy
`ValueError` (bad reshape / bad range step). -/
inductive Err where
  | truncated
  | notAxograph
  | versionMismatch
  | trailingBytes
  | fontSettingFailed
  | groupCountMismatch
  | unimplementedVersion (v : ℤ)
  | unimplementedColumnType (t : ℤ)
  | seriesNotFirstColumn
  | unimplementedTraceHeaderVersion (v : ℤ)
  | unimplementedGroupHeaderVersion (v : ℤ)
  | nameError
  | zeroDivision
  | indexError
  | badUtf16
  | valueError
deriving DecidableEq, Repr

/-- Exact fraction: a Python/numpy float value `num / den`.  Operations never
normalise, so that every computation reduces inside the kernel (Rat's gcd
normalisation does not). -/
structure Frac where
  num : ℤ
  den : ℤ
deriving DecidableEq, Repr

def Frac.ofInt (z : ℤ) : Frac := ⟨z, 1⟩

instance : OfNat Frac n := ⟨Frac.ofInt n⟩

def Frac.add (a b : Frac) : Frac := ⟨a.num * b.den + b.num * a.den, a.den * b.den⟩

def Frac.sub (a b : Frac) : Frac := ⟨a.num * b.den - b.num * a.den, a.den * b.den⟩

def Frac.mul (a b : Frac) : Frac := ⟨a.num * b.num, a.den * b.den⟩

def Frac.div (a b : Frac) : Frac := ⟨a.num * b.den, a.den * b.num⟩

/-- Value equality of two fractions (numpy float `==`). -/
def Frac.valEq (a b : Frac) : Bool := a.num * b.den == b.num * a.den

/-- Value of a fraction as a rational number (for specification statements
only; never evaluated by a witness). -/
def Frac.val (a : Frac) : ℚ := (a.num : ℚ) / (a.den : ℚ)

/-- The float is (value-)zero.  Decoded floats always have a positive
denominator, so this is `num = 0`. -/
def Frac.isZero (a : Frac) : Bool := a.num == 0

/-- Byte order of the embedded `StructFile` (`'>'` or `'<'`); the source
always constructs the reader with the default big-endian order. -/
inductive ByteOrder where
  | big
  | little
deriving DecidableEq, Repr

/-- A seekable byte stream: the file contents plus the current position.
Bytes are `Nat`s below 256. -/
structure ByteStream where
  data : List ℕ
  pos : ℕ
deriving DecidableEq, Repr

/-- `f.read(n)`: returns up to `n` bytes (short at end of file, like Python's
`BufferedReader.read`) and the advanced stream. -/
def ByteStream.readBytes (s : ByteStream) (n : ℕ) : List ℕ × ByteStream :=
  ((s.data.drop s.pos).take n,
    ⟨s.data, s.pos + ((s.data.drop s.pos).take n).length⟩)

/-- Read exactly `n` bytes or fail: models `struct.unpack` raising on a short
read, and `np.memmap` raising when the mapped extent exceeds the file. -/
def ByteStream.readExact (s : ByteStream) (n : ℕ) : Except Err (List ℕ × ByteStream) :=
  if ((s.data.drop s.pos).take n).length = n then .ok (s.readBytes n)
  else .error .truncated

/-- All bytes from the current position to the end (`f.read()`). -/
def ByteStream.restBytes (s : ByteStream) : List ℕ :=
  s.data.drop s.pos

/-- Combine bytes into an unsigned integer, most significant byte first. -/
def beCombine (bs : List ℕ) : ℕ := bs.foldl (fun a b => a * 256 + b) 0

/-- Combine bytes per the configured byte order. -/
def combineBytes (bo : ByteOrder) (bs : List ℕ) : ℕ :=
  match bo with
  | .big => beCombine bs
  | .little => beCombine bs.reverse

/-- Reinterpret a `w`-bit unsigned value as two's-complement signed. -/
def toSigned (w : ℕ) (v : ℕ) : ℤ :=
  if v < 2 ^ (w - 1) then (v : ℤ) else (v : ℤ) - 2 ^ w

/-- struct `'B'`: unsigned byte. -/
def readU8 (s : ByteStream) : Except Err (ℤ × ByteStream) := do
  let (bs, s') ← s.readExact 1
  .ok ((beCombine bs : ℤ), s')

/-- struct `'b'`: signed byte. -/
def readI8 (s : ByteStream) : Except Err (ℤ × ByteStream) := do
  let (bs, s') ← s.readExact 1
  .ok (toSigned 8 (beCombine bs), s')

/-- struct `'H'`: 2-byte unsigned integer. -/
def readU16 (bo : ByteOrder) (s : ByteStream) : Except Err (ℤ × ByteStream) := do
  let (bs, s') ← s.readExact 2
  .ok ((combineBytes bo bs : ℤ), s')

/-- struct `'h'`: 2-byte signed integer. -/
def readI16 (bo : ByteOrder) (s : ByteStream) : Except Err (ℤ × ByteStream) := do
  let (bs, s') ← s.readExact 2
  .ok (toSigned 16 (combineBytes bo bs), s')

/-- struct `'l'` under an explicit byte order: 4-byte signed integer. -/
def readI32 (bo : ByteOrder) (s : ByteStream) : Except Err (ℤ × ByteStream) := do
  let (bs, s') ← s.readExact 4
  .ok (toSigned 32 (combineBytes bo bs), s')

/-- Exact value of an IEEE-754 binary float given the unsigned bit pattern
`n`, the mantissa width `mw`, and the exponent width `ew`.  Infinities and
NaNs decode to 0 (outside the claims' scope). -/
def ieeeValue (mw ew : ℕ) (n : ℕ) : Frac :=
  let m := n % 2 ^ mw
  let e := (n / 2 ^ mw) % 2 ^ ew
  let sgn : ℤ := if n / 2 ^ (mw + ew) % 2 = 1 then -1 else 1
  let bias := 2 ^ (ew - 1) - 1
  if e = 2 ^ ew - 1 then ⟨0, 1⟩
  else
    let mant : ℕ := if e = 0 then m else 2 ^ mw + m
    let shift : ℤ := (if e = 0 then 1 else (e : ℤ)) - (bias : ℤ) - (mw : ℤ)
    if 0 ≤ shift then ⟨sgn * mant * 2 ^ shift.toNat, 1⟩
    else ⟨sgn * mant, 2 ^ (-shift).toNat⟩

/-- struct `'f'`: 4-byte IEEE-754 float. -/
def readF32 (bo : ByteOrder) (s : ByteStream) : Except Err (Frac × ByteStream) := do
  let (bs, s') ← s.readExact 4
  .ok (ieeeValue 23 8 (combineBytes bo bs), s')

/-- struct `'d'`: 8-byte IEEE-754 float. -/
def readF64 (bo : ByteOrder) (s : ByteStream) : Except Err (Frac × ByteStream) := do
  let (bs, s') ← s.readExact 8
  .ok (ieeeValue 52 11 (combineBytes bo bs), s')

/-- struct `'80p'`: 80 bytes, the first being the stored length; yields at
most 79 content bytes (kept as raw code units; the source additionally
decodes them as UTF-8). -/
def read80p (s : ByteStream) : Except Err (List ℕ × ByteStream) := do
  let (bs, s') ← s.readExact 80
  match bs with
  | [] => .ok ([], s')
  | n :: rest => .ok (rest.take (min n 79), s')

/-- Is `u` a UTF-16 high surrogate? -/
def isHighSurrogate (u : ℕ) : Bool := 0xD800 ≤ u && u ≤ 0xDBFF

/-- Is `u` a UTF-16 low surrogate? -/
def isLowSurrogate (u : ℕ) : Bool := 0xDC00 ≤ u && u ≤ 0xDFFF

/-- Split a byte list into 16-bit code units per the byte order; an odd byte
count is a decoding error (Python `codecs` strict mode). -/
def utf16CodeUnits (bo : ByteOrder) : List ℕ → Except Err (List ℕ)
  | [] => .ok []
  | [_] => .error .badUtf16
  | a :: b :: rest => do
    let u := match bo with
      | .big => a * 256 + b
      | .little => a + b * 256
    let us ← utf16CodeUnits bo rest
    .ok (u :: us)

/-- Combine surrogate pairs into code points; a lone surrogate is a decoding
error (Python `codecs` strict mode). -/
def utf16Combine : List ℕ → Except Err (List ℕ)
  | [] => .ok []
  | [u] =>
    if isHighSurrogate u || isLowSurrogate u then .error .badUtf16 else .ok [u]
  | u :: v :: rest =>
    if isHighSurrogate u then
      if isLowSurrogate v then do
        let cs ← utf16Combine rest
        .ok ((0x10000 + (u - 0xD800) * 0x400 + (v - 0xDC00)) :: cs)
      else .error .badUtf16
    else if isLowSurrogate u then .error .badUtf16
    else do
      let cs ← utf16Combine (v :: rest)
      .ok (u :: cs)

/-- `bytes.decode('utf-16-be' / 'utf-16-le')`: the decoded string as a list
of code points. -/
def utf16Decode (bo : ByteOrder) (bs : List ℕ) : Except Err (List ℕ) := do
  utf16Combine (← utf16CodeUnits bo bs)

/-- `StructFile.read_string`: a 4-byte signed length (may be -1, 0, or
positive); a length `≤ 0` yields the empty string with no further bytes
consumed, otherwise that many bytes are read (short at end of file, like
Python `read`) and decoded as UTF-16 in the configured byte order. -/
def readString (bo : ByteOrder) (s : ByteStream) : Except Err (List ℕ × ByteStream) := do
  let (length, s') ← readI32 bo s
  if 0 < length then
    let (bs, s'') := s'.readBytes length.toNat
    let cs ← utf16Decode bo bs
    .ok (cs, s'')
  else
    .ok ([], s')

/-- `StructFile.read_bool`: a 4-byte signed integer, non-zero meaning true. -/
def readBool (bo : ByteOrder) (s : ByteStream) : Except Err (Bool × ByteStream) := do
  let (v, s') ← readI32 bo s
  .ok (v != 0, s')

/-- Value comparison of fractions; correct for the positive denominators
produced by the float decoders. -/
def fracLe (a b : Frac) : Bool := a.num * b.den ≤ b.num * a.den

/-- Insert into a `fracLe`-sorted list. -/
def insFrac (x : Frac) : List Frac → List Frac
  | [] => [x]
  | y :: ys => if fracLe x y then x :: y :: ys else y :: insFrac x ys

/-- Sort by float value (`np.sort` on the way to `np.median`). -/
def sortFrac : List Frac → List Frac
  | [] => []
  | x :: xs => insFrac x (sortFrac xs)

/-- `np.diff`: successive differences. -/
def diffFrac : List Frac → List Frac
  | a :: b :: rest => Frac.sub b a :: diffFrac (b :: rest)
  | _ => []

/-- `np.median`: middle element of the sorted list, or the mean of the two
middle elements.  `np.median` of an empty array is NaN (with a warning, no
exception); NaN is modelled as 0. -/
def medianFrac (l : List Frac) : Frac :=
  let sorted := sortFrac l
  let n := sorted.length
  if n = 0 then 0
  else if n % 2 = 1 then sorted.getD (n / 2) 0
  else Frac.div (Frac.add (sorted.getD (n / 2 - 1) 0) (sorted.getD (n / 2) 0)) 2

/-- The numeric storage kind of a data column (`dtype` in the source). -/
inductive DType where
  | int16
  | int32
  | float32
  | float64
deriving DecidableEq, Repr

/-- Character code of the struct format letter the source stores in the
channel table (`'h'`, `'l'`, `'f'`, `'d'`). -/
def DType.charCode : DType → ℕ
  | .int16 => 104
  | .int32 => 108
  | .float32 => 102
  | .float64 => 100

/-- Read one stored sample of the given kind. -/
def readElem (dt : DType) (s : ByteStream) : Except Err (Frac × ByteStream) :=
  match dt with
  | .int16 => do
    let (v, s') ← readI16 .big s
    .ok (Frac.ofInt v, s')
  | .int32 => do
    let (v, s') ← readI32 .big s
    .ok (Frac.ofInt v, s')
  | .float32 => readF32 .big s
  | .float64 => readF64 .big s

/-- Read `n` stored samples. -/
def readSampleArrayAux (dt : DType) : ℕ → ByteStream → Except Err (List Frac × ByteStream)
  | 0, s => .ok ([], s)
  | n + 1, s => do
    let (v, s) ← readElem dt s
    let (vs, s') ← readSampleArrayAux dt n s
    .ok (v :: vs, s')

/-- `np.memmap(..., shape=n_points)` followed by seeking past the array:
a negative shape or a mapping extending past the end of the file is a
`ValueError` (the latter modelled as `truncated`); otherwise the samples are
decoded and the position advances by the exact byte length. -/
def readSampleArray (dt : DType) (nPoints : ℤ) (s : ByteStream) :
    Except Err (List Frac × ByteStream) :=
  if nPoints < 0 then .error .valueError
  else readSampleArrayAux dt nPoints.toNat s

/-- One entry of the signal-channel table
(`(name, channel_id, 1/sampling_period, dtype, units, gain, offset, group_id)`,
source line 435). -/
structure SigChannel where
  name : List ℕ
  channelId : ℕ
  samplingRate : Frac
  dtypeCode : ℕ
  units : List ℕ
  gain : Frac
  offset : Frac
  groupId : ℕ
deriving DecidableEq, Repr

/-- State threaded through the column loop. -/
structure ColState where
  tStart : Option Frac
  samplingPeriod : Option Frac
  sigChannels : List SigChannel
  sigArrays : List (List Frac)
deriving DecidableEq, Repr

/-- The loop starts with `t_start` and `sampling_period` unbound and empty
`sig_channels` / `sigs_memmap` lists. -/
def initColState : ColState := ⟨none, none, [], []⟩

/-- Is the code unit ASCII whitespace (`str.split` separators)? -/
def isWsChar (c : ℕ) : Bool := c == 32 || c == 9 || c == 10 || c == 13 || c == 11 || c == 12

/-- `str.split()`: split on whitespace runs, discarding empty tokens. -/
def splitWsAux : List ℕ → List ℕ → List (List ℕ)
  | [], cur => if cur.isEmpty then [] else [cur.reverse]
  | c :: rest, cur =>
    if isWsChar c then
      if cur.isEmpty then splitWsAux rest [] else cur.reverse :: splitWsAux rest []
    else splitWsAux rest (c :: cur)

/-- `title.split()`. -/
def splitWs (l : List ℕ) : List (List ℕ) := splitWsAux l []

/-- `' '.join(tokens)`. -/
def joinSpace : List (List ℕ) → List ℕ
  | [] => []
  | [w] => w
  | w :: ws => w ++ 32 :: joinSpace ws

/-- Is the code unit `'('` or `')'`? -/
def isParenChar (c : ℕ) : Bool := c == 40 || c == 41

/-- `token.strip('()')`. -/
def stripParens (l : List ℕ) : List ℕ :=
  ((l.dropWhile isParenChar).reverse.dropWhile isParenChar).reverse

/-- Units are split from a column title by treating a trailing parenthesized
token as units (source lines 290-295). -/
def splitTitle (title : List ℕ) : List ℕ × List ℕ :=
  let toks := splitWs title
  match toks.getLast? with
  | some (c :: cs) =>
    if c = 40 ∧ (c :: cs).getLast? = some 41 then
      (joinSpace toks.dropLast, stripParens (c :: cs))
    else (title, [])
  | _ => (title, [])

/-- The per-column prelude common to all format versions: the point count,
then (for version ≥ 3 only) the column type tag, then the title — a fixed
80-byte Pascal string before version 3, a length-prefixed UTF-16 string
from version 3 on. -/
def readColPrelude (ver : ℤ) (s : ByteStream) :
    Except Err (ℤ × Option ℤ × List ℕ × ByteStream) := do
  let (nPoints, s) ← readI32 .big s
  if ver = 1 ∨ ver = 2 then do
    let (title, s) ← read80p s
    .ok (nPoints, none, title, s)
  else if 3 ≤ ver then do
    let (colType, s) ← readI32 .big s
    let (title, s) ← readString .big s
    .ok (nPoints, some colType, title, s)
  else .error (.unimplementedVersion ver)

/-- Build the `channel_info` tuple and append it together with the sample
array.  Evaluating `1/sampling_period` with `sampling_period` still unbound
is the `NameError` of source line 435. -/
def appendChannel (st : ColState) (i : ℕ) (nm un : List ℕ) (dt : DType)
    (gain offset : Frac) (arr : List Frac) : Except Err ColState :=
  match st.samplingPeriod with
  | none => .error .nameError
  | some sp =>
    let ch : SigChannel :=
      { name := nm, channelId := i, samplingRate := Frac.div 1 sp,
        dtypeCode := dt.charCode, units := un, gain := gain, offset := offset,
        groupId := 0 }
    .ok { st with sigChannels := st.sigChannels ++ [ch],
                  sigArrays := st.sigArrays ++ [arr] }

/-- Decode one data column (the body of the `for i in range(n_cols)` loop,
source lines 248-441).  Version 1: all columns are float arrays, column 0 is
the (assumed regular) time axis whose first value and median increment set
`t_start` and `sampling_period`; an empty version-1 time column is the
`IndexError` of `array[0]`.  Version 2: column 0 is a first-value/increment
series (a zero increment is the `ZeroDivisionError` of the `1/increment`
debug format), later columns are shorts scaled by a float gain.  Version ≥ 3:
the column type tag selects the kind; tag 9 (series) is only valid for
column 0; tags 4/5/6/7 are unscaled short/long/float/double; tag 10 is a
scaled short with gain and offset read as doubles; any other tag is the
`NotImplementedError` of source line 421, raised before any channel or array
is appended for the column. -/
def parseColumnBody (ver : ℤ) (i : ℕ) (st : ColState) (nPoints : ℤ)
    (colType : Option ℤ) (title : List ℕ) (s : ByteStream) :
    Except Err (ColState × ByteStream) :=
  if ver = 1 then
    if i = 0 then do
      let (arr, s) ← readSampleArray .float32 nPoints s
      match arr with
      | [] => .error .indexError
      | a :: _ =>
        .ok ({ st with tStart := some a,
                       samplingPeriod := some (medianFrac (diffFrac arr)) }, s)
    else do
      let (arr, s) ← readSampleArray .float32 nPoints s
      let st ← appendChannel st i (splitTitle title).1 (splitTitle title).2
        .float32 1 0 arr
      .ok (st, s)
  else if ver = 2 then
    if i = 0 then do
      let (firstValue, s) ← readF32 .big s
      let (increment, s) ← readF32 .big s
      if increment.isZero then .error .zeroDivision
      else .ok ({ st with tStart := some firstValue,
                          samplingPeriod := some increment }, s)
    else do
      let (gain, s) ← readF32 .big s
      let (arr, s) ← readSampleArray .int16 nPoints s
      let st ← appendChannel st i (splitTitle title).1 (splitTitle title).2
        .int16 gain 0 arr
      .ok (st, s)
  else if 3 ≤ ver then
    match colType with
    | some t =>
      if t = 9 then do
        let (firstValue, s) ← readF64 .big s
        let (increment, s) ← readF64 .big s
        if increment.isZero then .error .zeroDivision
        else if i = 0 then
          .ok ({ st with tStart := some firstValue,
                         samplingPeriod := some increment }, s)
        else .error .seriesNotFirstColumn
      else if t = 4 then do
        let (arr, s) ← readSampleArray .int16 nPoints s
        let st ← appendChannel st i (splitTitle title).1 (splitTitle title).2
          .int16 1 0 arr
        .ok (st, s)
      else if t = 5 then do
        let (arr, s) ← readSampleArray .int32 nPoints s
        let st ← appendChannel st i (splitTitle title).1 (splitTitle title).2
          .int32 1 0 arr
        .ok (st, s)
      else if t = 6 then do
        let (arr, s) ← readSampleArray .float32 nPoints s
        let st ← appendChannel st i (splitTitle title).1 (splitTitle title).2
          .float32 1 0 arr
        .ok (st, s)
      else if t = 7 then do
        let (arr, s) ← readSampleArray .float64 nPoints s
        let st ← appendChannel st i (splitTitle title).1 (splitTitle title).2
          .float64 1 0 arr
        .ok (st, s)
      else if t = 10 then do
        let (gain, s) ← readF64 .big s
        let (offset, s) ← readF64 .big s
        let (arr, s) ← readSampleArray .int16 nPoints s
        let st ← appendChannel st i (splitTitle title).1 (splitTitle title).2
          .int16 gain offset arr
        .ok (st, s)
      else .error (.unimplementedColumnType t)
    | none =>
      -- unreachable: the prelude always supplies a column type for version ≥ 3
      .error (.unimplementedColumnType (-1))
  else .error (.unimplementedVersion ver)

/-- One data column: the prelude, then the version/type dispatch. -/
def parseColumn (ver : ℤ) (i : ℕ) (st : ColState) (s : ByteStream) :
    Except Err (ColState × ByteStream) := do
  let (nPoints, colType, title, s) ← readColPrelude ver s
  parseColumnBody ver i st nPoints colType title s

/-- The column loop `for i in range(n_cols)`, from column index `i` with
`count` columns left to read. -/
def parseColumnsAux (ver : ℤ) : ℕ → ℕ → ColState → ByteStream →
    Except Err (ColState × ByteStream)
  | 0, _, st, s => .ok (st, s)
  | count + 1, i, st, s => do
    let (st', s') ← parseColumn ver i st s
    parseColumnsAux ver count (i + 1) st' s'

/-- Decode the whole column section. -/
def parseColumns (ver nCols : ℤ) (s : ByteStream) : Except Err (ColState × ByteStream) :=
  parseColumnsAux ver nCols.toNat 0 initColState s

/-- The first value and increment of column 0 under each version's rule:
the first element and median difference of a version-1 float time column, or
the stored first value and increment of a version-2 or type-9 series.  This
is the claim-side projection of the time-column branches of `parseColumn`,
used to state what `t_start` and `sampling_period` are set to. -/
def col0TimeParamsBody (ver : ℤ) (nPoints : ℤ) (colType : Option ℤ)
    (s : ByteStream) : Except Err (Frac × Frac) :=
  if ver = 1 then do
    let (arr, _) ← readSampleArray .float32 nPoints s
    match arr with
    | [] => .error .indexError
    | a :: _ => .ok (a, medianFrac (diffFrac arr))
  else if ver = 2 then do
    let (firstValue, s) ← readF32 .big s
    let (increment, _) ← readF32 .big s
    if increment.isZero then .error .zeroDivision
    else .ok (firstValue, increment)
  else if 3 ≤ ver then
    match colType with
    | some t =>
      if t = 9 then do
        let (firstValue, s) ← readF64 .big s
        let (increment, _) ← readF64 .big s
        if increment.isZero then .error .zeroDivision
        else .ok (firstValue, increment)
      else .error (.unimplementedColumnType t)
    | none => .error (.unimplementedColumnType (-1))
  else .error (.unimplementedVersion ver)

/-- The first value and increment of column 0: the prelude, then the
per-version time-column rule. -/
def col0TimeParams (ver : ℤ) (s : ByteStream) : Except Err (Frac × Frac) := do
  let (nPoints, colType, _, s) ← readColPrelude ver s
  col0TimeParamsBody ver nPoints colType s

/-- Keep the first occurrence of each equivalence class under `p`
(`set`/`np.unique` cardinality; only lengths and membership are used). -/
def dedupByAux (p : α → α → Bool) : List α → List α → List α
  | _, [] => []
  | seen, x :: xs =>
    if seen.any (fun y => p y x) then dedupByAux p seen xs
    else x :: dedupByAux p (x :: seen) xs

/-- `dedupBy p l`: `l` without `p`-duplicates. -/
def dedupBy (p : α → α → Bool) (l : List α) : List α := dedupByAux p [] l

/-- Insert into a sorted integer list. -/
def insInt (x : ℤ) : List ℤ → List ℤ
  | [] => [x]
  | y :: ys => if x ≤ y then x :: y :: ys else y :: insInt x ys

/-- `np.sort` on integers (insertion sort, kernel-reducible). -/
def isortInt : List ℤ → List ℤ
  | [] => []
  | x :: xs => insInt x (isortInt xs)

/-- One field token of a struct-style format description.  The source drives
section decoding with format strings (`'l'`, `'d'`, `'xBBB'`, `'S'`, `'Z'`,
...); here each description is spelled as the corresponding token list. -/
inductive FTok where
  | pad
  | u8
  | i8
  | i16
  | u16
  | i32
  | f32
  | f64
  | sstr
  | zbool
deriving DecidableEq, Repr

/-- A decoded field value. -/
inductive FVal where
  | i (z : ℤ)
  | q (x : Frac)
  | s (cs : List ℕ)
  | b (t : Bool)
deriving DecidableEq, Repr

/-- Read one field token (`pad` consumes one byte and yields no value, like
struct `'x'`). -/
def readTok (t : FTok) (s : ByteStream) : Except Err (Option FVal × ByteStream) :=
  match t with
  | .pad => do
    let (_, s') ← s.readExact 1
    .ok (none, s')
  | .u8 => do
    let (v, s') ← readU8 s
    .ok (some (.i v), s')
  | .i8 => do
    let (v, s') ← readI8 s
    .ok (some (.i v), s')
  | .i16 => do
    let (v, s') ← readI16 .big s
    .ok (some (.i v), s')
  | .u16 => do
    let (v, s') ← readU16 .big s
    .ok (some (.i v), s')
  | .i32 => do
    let (v, s') ← readI32 .big s
    .ok (some (.i v), s')
  | .f32 => do
    let (v, s') ← readF32 .big s
    .ok (some (.q v), s')
  | .f64 => do
    let (v, s') ← readF64 .big s
    .ok (some (.q v), s')
  | .sstr => do
    let (v, s') ← readString .big s
    .ok (some (.s v), s')
  | .zbool => do
    let (v, s') ← readBool .big s
    .ok (some (.b v), s')

/-- `StructFile.read_f`: decode a composite format field by field, in order. -/
def readFmt : List FTok → ByteStream → Except Err (List FVal × ByteStream)
  | [], s => .ok ([], s)
  | t :: ts, s => do
    let (v, s) ← readTok t s
    let (vs, s') ← readFmt ts s
    match v with
    | none => .ok (vs, s')
    | some v => .ok (v :: vs, s')

/-- Extract the `k`-th decoded value as an integer (the shape never fails on
the fixed descriptions used below). -/
def getIntAt (vals : List FVal) (k : ℕ) : Except Err ℤ :=
  match vals.getD k (.b false) with
  | .i z => .ok z
  | _ => .error .valueError

/-- `TraceHeaderDescriptionV1` (source lines 871-905): `x_index`, `y_index`,
`err_bar_index`, `group_id_for_this_trace`, `hidden`, `min_x`, `max_x`,
`min_positive_x`, `x_is_regularly_spaced`, `x_increases_monotonically`,
`x_interval_if_regularly_spaced`, `min_y`, `max_y`, `min_positive_y`,
`trace_color` (`xBBB`), `display_joined_line_plot`, `line_thickness`,
`pen_style`, `display_symbol_plot`, `symbol_type`, `symbol_size`,
`draw_every_data_point`, `skip_points_by_distance_instead_of_pixels`,
`pixels_between_symbols`, `display_histogram_plot`, `histogram_type`,
`histogram_bar_separation`, `display_error_bars`, `display_pos_err_bar`,
`display_neg_err_bar`, `err_bar_width`. -/
def TraceHeaderDescriptionV1 : List FTok :=
  [.i32, .i32, .i32, .i32, .zbool, .f64, .f64, .f64, .zbool, .zbool, .f64,
   .f64, .f64, .f64, .pad, .u8, .u8, .u8, .zbool, .f64, .i32, .zbool, .i32,
   .i32, .zbool, .zbool, .i32, .zbool, .i32, .i32, .zbool, .zbool, .zbool,
   .i32]

/-- Version 2 inserts `neg_err_bar_index` at position 3 (source line 909). -/
def TraceHeaderDescriptionV2 : List FTok :=
  TraceHeaderDescriptionV1.take 3 ++ [.i32] ++ TraceHeaderDescriptionV1.drop 3

/-- The two trace-header fields the rest of the decoder consumes. -/
structure TraceInfo where
  yIndex : ℤ
  groupId : ℤ
deriving DecidableEq, Repr

/-- Read one trace header: before format version 6 the header schema is
version 1 implicitly; from version 6 on the schema version is read and must
be 1 or 2 (source lines 494-512).  `y_index` is decoded value 1;
`group_id_for_this_trace` is value 3 (schema 1) or 4 (schema 2). -/
def readTraceHeader (ver : ℤ) (s : ByteStream) : Except Err (TraceInfo × ByteStream) := do
  let (thv, s) ←
    (if ver < 6 then .ok ((1 : ℤ), s) else readI32 .big s :
      Except Err (ℤ × ByteStream))
  let desc ←
    (if thv = 1 then .ok TraceHeaderDescriptionV1
     else if thv = 2 then .ok TraceHeaderDescriptionV2
     else .error (.unimplementedTraceHeaderVersion thv) : Except Err (List FTok))
  let (vals, s) ← readFmt desc s
  let yi ← getIntAt vals 1
  let gi ← getIntAt vals (if thv = 2 then 4 else 3)
  .ok ({ yIndex := yi, groupId := gi }, s)

/-- Read `n` trace headers in file order. -/
def readTraceHeaders (ver : ℤ) : ℕ → ByteStream → Except Err (List TraceInfo × ByteStream)
  | 0, s => .ok ([], s)
  | n + 1, s => do
    let (t, s) ← readTraceHeader ver s
    let (ts, s') ← readTraceHeaders ver n s
    .ok (t :: ts, s')

/-- `GroupHeaderDescriptionV1` (source lines 911-917): `title`, `unknown1`
(`h`), `units`, `unknown2` (`hll`). -/
def GroupHeaderDescriptionV1 : List FTok := [.sstr, .i16, .sstr, .i16, .i32, .i32]

/-- Read one group header (schema version read from format version 6 on;
only schema 1 exists). -/
def readGroupHeader (ver : ℤ) (s : ByteStream) : Except Err ByteStream := do
  let (ghv, s) ←
    (if ver < 6 then .ok ((1 : ℤ), s) else readI32 .big s :
      Except Err (ℤ × ByteStream))
  if ghv = 1 then do
    let (_, s') ← readFmt GroupHeaderDescriptionV1 s
    .ok s'
  else .error (.unimplementedGroupHeaderVersion ghv)

/-- Read one group header per referenced group id. -/
def readGroupHeaders (ver : ℤ) : ℕ → ByteStream → Except Err ByteStream
  | 0, s => .ok s
  | n + 1, s => do
    let s ← readGroupHeader ver s
    readGroupHeaders ver n s

/-- Consume `n` 4-byte booleans. -/
def consumeBools : ℕ → ByteStream → Except Err ByteStream
  | 0, s => .ok s
  | n + 1, s => do
    let (_, s) ← readBool .big s
    consumeBools n s

/-- An episode-membership section: a count followed by that many 4-byte
booleans. -/
def readEpisodeSection (s : ByteStream) : Except Err (ℤ × ByteStream) := do
  let (n, s) ← readI32 .big s
  let s ← consumeBools n.toNat s
  .ok (n, s)

/-- `FontSettingsDescription` (source lines 919-926): `font`, `size`,
`unknown1` (`5b`), `setting1`, `setting2`.  `setting1` must be `FONT_BOLD`
(75) or `FONT_NOT_BOLD` (50), source line 639. -/
def FontSettingsDescription : List FTok :=
  [.sstr, .i16, .i8, .i8, .i8, .i8, .i8, .u8, .u8]

/-- Read one font-settings record and check the bold switch. -/
def readFontSettings (s : ByteStream) : Except Err ByteStream := do
  let (vals, s) ← readFmt FontSettingsDescription s
  let setting1 ← getIntAt vals 7
  if setting1 = 75 ∨ setting1 = 50 then .ok s else .error .fontSettingFailed

/-- Read `n` font-settings records (4 categories from format version 6 on,
1 before). -/
def readFontList : ℕ → ByteStream → Except Err ByteStream
  | 0, s => .ok s
  | n + 1, s => do
    let s ← readFontSettings s
    readFontList n s

/-- `XAxisSettingsDescription` (source lines 928-940): `unknown1` (`3l2d`),
`plotted_x_range` (`dd`), `unknown2` (`d`), `auto_x_ticks`, `x_minor_ticks`,
`x_major_ticks`, `x_axis_title`, `unknown3` (`h`), `units`, `unknown4`
(`h`). -/
def XAxisSettingsDescription : List FTok :=
  [.i32, .i32, .i32, .f64, .f64, .f64, .f64, .f64, .zbool, .f64, .f64,
   .sstr, .i16, .sstr, .i16]

/-- `'9l'`: 36 bytes of undeciphered data after the group headers. -/
def unknownFmt1 : List FTok := List.replicate 9 .i32

/-- `'d 9l d 4l'`: 68 bytes of undeciphered data after the episode lists. -/
def unknownFmt2 : List FTok :=
  [.f64] ++ List.replicate 9 .i32 ++ [.f64] ++ List.replicate 4 .i32

/-- `'8l 3d 13l'`: 108 bytes of undeciphered data after the x-axis
settings. -/
def unknownFmt3 : List FTok :=
  List.replicate 8 .i32 ++ List.replicate 3 .f64 ++ List.replicate 13 .i32

/-- `'7l'`: 28 bytes of undeciphered data after the events. -/
def unknownFmt4 : List FTok := List.replicate 7 .i32

/-- Read `n` 4-byte integers. -/
def readI32List : ℕ → ByteStream → Except Err (List ℤ × ByteStream)
  | 0, s => .ok ([], s)
  | n + 1, s => do
    let (v, s) ← readI32 .big s
    let (vs, s') ← readI32List n s
    .ok (v :: vs, s')

/-- Read `n` length-prefixed strings. -/
def readStringList : ℕ → ByteStream → Except Err (List (List ℕ) × ByteStream)
  | 0, s => .ok ([], s)
  | n + 1, s => do
    let (v, s) ← readString .big s
    let (vs, s') ← readStringList n s
    .ok (v :: vs, s')

/-- `EpochInfoDescription` (source lines 942-948): `title`, `t_start`,
`t_stop`, `y_pos`. -/
def EpochInfoDescription : List FTok := [.sstr, .f64, .f64, .f64]

/-- Consume `n` epoch records. -/
def consumeEpochInfos : ℕ → ByteStream → Except Err ByteStream
  | 0, s => .ok s
  | n + 1, s => do
    let (_, s) ← readFmt EpochInfoDescription s
    consumeEpochInfos n s

/-- The post-column metadata the decoder keeps from a modern-era file. -/
structure ModernTailInfo where
  nTraces : ℤ
  traces : List TraceInfo
  nGroups : ℤ
  groupIds : List ℤ
  nEpisodes : ℤ
  nEvents : ℤ
  nEpochs : ℤ
deriving DecidableEq, Repr

/-- Decode everything after the column section of a version ≥ 3 file in file
order (source lines 459-732): comment, notes, traces, groups, reserved
bytes, episode-membership lists (the format-5 extra copy included), reserved
bytes, font settings, x-axis settings, reserved bytes, events, reserved
bytes, epochs, and the undeciphered tail.  Computing an event time (line
689) or an epoch timestamp (line 721) with `sampling_period` still unbound
is a `NameError`; an epoch timestamp with a zero sampling period is a
`ZeroDivisionError`. -/
def parseModernTail (ver : ℤ) (samplingPeriod : Option Frac) (s : ByteStream) :
    Except Err (ModernTailInfo × ByteStream) := do
  let (_, s) ← readString .big s            -- comment
  let (_, s) ← readString .big s            -- notes
  let (nTraces, s) ← readI32 .big s
  let (traces, s) ← readTraceHeaders ver nTraces.toNat s
  let (nGroups, s) ← readI32 .big s
  let groupIds := isortInt (dedupBy (· == ·) (traces.map (·.groupId)))
  if nGroups = (groupIds.length : ℤ) then do
    let s ← readGroupHeaders ver groupIds.length s
    let (_, s) ← readFmt unknownFmt1 s
    let (nEpisodes, s) ← readEpisodeSection s
    let s ←
      (if ver = 5 then do
        let (_, s') ← readEpisodeSection s
        .ok s'
      else .ok s : Except Err ByteStream)
    let (_, s) ← readEpisodeSection s       -- unknown episode list
    let (_, s) ← readEpisodeSection s       -- masked episodes
    let (_, s) ← readFmt unknownFmt2 s
    let s ← readFontList (if 6 ≤ ver then 4 else 1) s
    let (_, s) ← readFmt XAxisSettingsDescription s
    let (_, s) ← readFmt unknownFmt3 s
    let (nEvents, s) ← readI32 .big s
    let (nEventsAgain, s) ← readI32 .big s
    let (eventIndexes, s) ← readI32List nEventsAgain.toNat s
    let (nEventsYetAgain, s) ← readI32 .big s
    let (eventLabels, s) ← readStringList nEventsYetAgain.toNat s
    let _ ←
      (match samplingPeriod, eventIndexes, eventLabels with
       | none, _ :: _, _ :: _ => .error .nameError
       | _, _, _ => .ok () : Except Err Unit)
    let (_, s) ← readFmt unknownFmt4 s
    let (nEpochs, s) ← readI32 .big s
    let s ← consumeEpochInfos nEpochs.toNat s
    let _ ←
      (match samplingPeriod, nEpochs.toNat with
       | none, _ + 1 => .error .nameError
       | some sp, _ + 1 => if sp.isZero then .error .zeroDivision else .ok ()
       | _, 0 => .ok () : Except Err Unit)
    let s : ByteStream := ⟨s.data, s.data.length⟩   -- final f.read()
    .ok ({ nTraces := nTraces, traces := traces, nGroups := nGroups,
           groupIds := groupIds, nEpisodes := nEpisodes, nEvents := nEvents,
           nEpochs := nEpochs }, s)
  else .error .groupCountMismatch

/-- The metadata kept in `self.info` that later stages consult.  For a
legacy (version < 3) file the episode/group/trace keys are absent from
`info` in the source; the heuristic returns before reading them, so they are
populated with inert defaults here. -/
structure Info where
  formatVer : ℤ
  nEpisodes : ℤ
  groupIds : List ℤ
  traces : List TraceInfo
deriving DecidableEq, Repr

/-- The header contract produced for the consumer (source lines 741-745;
the constant event-channel pair and the empty unit-channel table are
omitted). -/
structure HeaderModel where
  nbBlock : ℤ
  nbSegment : List ℤ
  signalChannels : List SigChannel
deriving DecidableEq, Repr

/-- Everything `_do_the_heavy_lifting` stores on the decoder object. -/
structure HeavyResult where
  header : HeaderModel
  tStart : Frac
  samplingPeriod : Frac
  rawSignals : List (List (List Frac))
  info : Info
deriving DecidableEq, Repr

/-- `'AxGr'`. -/
def axgrMagic : List ℕ := [65, 120, 71, 114]

/-- `'axgx'`. -/
def axgxMagic : List ℕ := [97, 120, 103, 120]

/-- Read the 4-byte magic, the format version and the column count
(source lines 223-239): legacy `'AxGr'` files use 2-byte unsigned fields and
require version 1 or 2; modern `'axgx'` files use 4-byte fields and require
version ≥ 3; anything else is not an AxoGraph file. -/
def readHeaderIds (s : ByteStream) : Except Err (ℤ × ℤ × ByteStream) :=
  let (idBytes, s1) := s.readBytes 4
  if idBytes = axgrMagic then do
    let (formatVer, s2) ← readU16 .big s1
    let (nCols, s3) ← readU16 .big s2
    if formatVer = 1 ∨ formatVer = 2 then .ok (formatVer, nCols, s3)
    else .error .versionMismatch
  else if idBytes = axgxMagic then do
    let (formatVer, s2) ← readI32 .big s1
    let (nCols, s3) ← readI32 .big s2
    if 3 ≤ formatVer then .ok (formatVer, nCols, s3)
    else .error .versionMismatch
  else .error .notAxograph

/-- Package the decoded pieces (source lines 737-787): one block, one
segment, the collected signal channels, the flat sample-array list as the
single segment's data, and the retained metadata. -/
def assembleResult (tStart samplingPeriod : Frac) (cst : ColState)
    (info : Info) : HeavyResult :=
  { header := { nbBlock := 1, nbSegment := [1], signalChannels := cst.sigChannels },
    tStart := tStart, samplingPeriod := samplingPeriod,
    rawSignals := [cst.sigArrays], info := info }

/-- `_do_the_heavy_lifting`: magic and version, the column section, then —
for a legacy file — the requirement that the byte stream be exactly
exhausted (`assert rest_of_the_file == b''`, source line 451), or — for a
modern file — the full metadata tail.  Storing `t_start` or
`sampling_period` while still unbound (no time column seen, source lines
749-750) is a `NameError`. -/
def heavyLifting (bytes : List ℕ) : Except Err HeavyResult := do
  let (ver, nCols, s) ← readHeaderIds ⟨bytes, 0⟩
  let (cst, s) ← parseColumns ver nCols s
  let info ←
    (if ver = 1 ∨ ver = 2 then
      if s.restBytes = [] then
        .ok { formatVer := ver, nEpisodes := 0, groupIds := [], traces := [] }
      else .error .trailingBytes
    else do
      let (tail, _) ← parseModernTail ver cst.samplingPeriod s
      .ok { formatVer := ver, nEpisodes := tail.nEpisodes,
            groupIds := tail.groupIds, traces := tail.traces } :
      Except Err Info)
  match cst.tStart, cst.samplingPeriod with
  | some t0, some sp => .ok (assembleResult t0 sp cst info)
  | _, _ => .error .nameError

/-- A signal channel with its unique id dropped
(`signal_channels_with_ids_dropped`, source line 175). -/
structure SigParams where
  name : List ℕ
  samplingRate : Frac
  dtypeCode : ℕ
  units : List ℕ
  gain : Frac
  offset : Frac
  groupId : ℕ
deriving DecidableEq, Repr

/-- Drop the unique id. -/
def SigChannel.dropId (ch : SigChannel) : SigParams :=
  { name := ch.name, samplingRate := ch.samplingRate, dtypeCode := ch.dtypeCode,
    units := ch.units, gain := ch.gain, offset := ch.offset, groupId := ch.groupId }

/-- Row equality of two id-less channel descriptors as numpy compares them:
float fields by value, the rest structurally. -/
def SigParams.valEq (a b : SigParams) : Bool :=
  a.name == b.name && a.samplingRate.valEq b.samplingRate &&
  a.dtypeCode == b.dtypeCode && a.units == b.units && a.gain.valEq b.gain &&
  a.offset.valEq b.offset && a.groupId == b.groupId

/-- numpy indexing of the id-less channel table: a negative index wraps once
from the end; anything out of range raises `IndexError`. -/
def npIndex (params : List SigParams) (j : ℤ) : Except Err SigParams :=
  let jj : ℤ := if j < 0 then (params.length : ℤ) + j else j
  if h : 0 ≤ jj ∧ jj.toNat < params.length then .ok (params.get ⟨jj.toNat, h.2⟩)
  else .error .indexError

/-- Effectful map over a list in order, stopping at the first failure
(structural `mapM` for `Except`). -/
def exMapM (f : α → Except Err β) : List α → Except Err (List β)
  | [] => .ok []
  | x :: xs => do
    let y ← f x
    let ys ← exMapM f xs
    .ok (y :: ys)

/-- `_safe_to_treat_as_episodic` (source lines 132-188), the ordered
short-circuit checks: (1) format version ≥ 3; (2) all groups have the same
number of traces; (3) that count equals `n_episodes`; (4) within each group
the id-less channel descriptors selected by the traces' `y_index - 1` are
all identical.  An empty group's index list is a float-dtype numpy index
array, an `IndexError` (as is any out-of-range `y_index - 1`). -/
def safeToTreatAsEpisodic (info : Info) (channels : List SigChannel) : Except Err Bool :=
  if info.formatVer < 3 then .ok false
  else
    let colIndexesByGroup := info.groupIds.map (fun g =>
      (info.traces.filter (fun t => t.groupId == g)).map (·.yIndex))
    let nTracesByGroup := colIndexesByGroup.map (·.length)
    if (dedupBy (· == ·) nTracesByGroup).length ≠ 1 then .ok false
    else if Int.ofNat ((dedupBy (· == ·) nTracesByGroup).headD 0) ≠ info.nEpisodes then
      .ok false
    else do
      let flags ← exMapM (fun colIdxs =>
        (if colIdxs.isEmpty then .error .indexError
         else do
           let params ← exMapM
             (fun y => npIndex (channels.map SigChannel.dropId) (y - 1)) colIdxs
           .ok ((dedupBy SigParams.valEq params).length == 1) :
          Except Err Bool)) colIndexesByGroup
      .ok (flags.all id)

/-- Contiguous slices `l[j:j+k]` for `j = 0, k, 2k, ...` (the
`np.arange(0, len, k)` loop of source lines 202-203), with the list length
as fuel. -/
def chunkAux (k : ℕ) : ℕ → List α → List (List α)
  | 0, _ => []
  | _, [] => []
  | fuel + 1, x :: xs => (x :: xs).take k :: chunkAux k fuel ((x :: xs).drop k)

/-- Split into contiguous chunks of size `k`. -/
def chunkSlices (k : ℕ) (l : List α) : List (List α) := chunkAux k l.length l

/-- `_convert_to_multi_segment` (source lines 190-208): the segment count
becomes `n_episodes`; the channel table is reshaped to
`(n_episodes, -1)` and row 0 kept (numpy rejects a non-positive episode
count, a size-0 table, or a non-divisible length); the flat sample-array
list is cut into contiguous chunks of the new channel count. -/
def convertToMultiSegment (r : HeavyResult) : Except Err HeavyResult :=
  let n := r.info.nEpisodes
  let len := r.header.signalChannels.length
  if n ≤ 0 ∨ len = 0 ∨ ¬(n.toNat ∣ len) then .error .valueError
  else
    let k := len / n.toNat
    let newChannels := r.header.signalChannels.take k
    match r.rawSignals with
    | [] => .error .indexError
    | sigs0 :: _ =>
      .ok { r with
            header := { r.header with nbSegment := [n], signalChannels := newChannels },
            rawSignals := chunkSlices newChannels.length sigs0 }

/-- The decision step of `_parse_header` (source lines 36-41):
`not force_single_segment and self._safe_to_treat_as_episodic()` — with
`force_single_segment` set, the heuristic is short-circuited away and the
result of the heavy lifting is kept unchanged. -/
def finishHeader (forceSingleSegment : Bool) (r : HeavyResult) : Except Err HeavyResult :=
  match forceSingleSegment with
  | true => .ok r
  | false => do
    let episodic ← safeToTreatAsEpisodic r.info r.header.signalChannels
    if episodic then convertToMultiSegment r else .ok r

/-- `_parse_header` end to end: heavy lifting, then the episodic decision. -/
def parseAxograph (forceSingleSegment : Bool) (bytes : List ℕ) : Except Err HeavyResult := do
  let r ← heavyLifting bytes
  finishHeader forceSingleSegment r

/-- `_rescale_event_timestamp` (source lines 119-122): multiply by the
sampling period; `t_start` is not added. -/
def rescaleEventTimestamp (r : HeavyResult) (timestamps : List Frac) : List Frac :=
  timestamps.map (fun t => Frac.mul t r.samplingPeriod)

/-- `_rescale_epoch_duration` (source lines 124-127): multiply by the
sampling period; `t_start` is not added. -/
def rescaleEpochDuration (r : HeavyResult) (durations : List Frac) : List Frac :=
  durations.map (fun d => Frac.mul d r.samplingPeriod)

/-- Modelled from the spec: converting a raw sample to physical units
multiplies by the channel gain and adds the channel offset (`s*g + o`).
The rescale step itself lives in the base-class module `baserawio.py`,
which is not among the sources; only the affine map is modelled. -/
def rescaleSignalSample (ch : SigChannel) (sample : Frac) : Frac :=
  Frac.add (Frac.mul sample ch.gain) ch.offset

/-! Concrete byte streams used by the witnesses. -/

/-- A complete legacy version-1 file: magic, version 1, 2 columns; column 0
is a float time column with points 0.0 and 1.0 and an empty title; column 1
is a float column with 0 points and an empty title; no trailing bytes. -/
def wBytesV1 : List ℕ :=
  axgrMagic ++ [0, 1] ++ [0, 2]
    ++ ([0, 0, 0, 2] ++ List.replicate 80 0 ++ [0, 0, 0, 0] ++ [63, 128, 0, 0])
    ++ ([0, 0, 0, 0] ++ List.replicate 80 0)

/-- `wBytesV1` with one trailing byte appended after the column arrays. -/
def wBytesV1Trailing : List ℕ := wBytesV1 ++ [7]

/-- A modern version-3 prefix whose single column carries the unknown type
tag 99 (point count 0, empty title). -/
def wBytesBadType : List ℕ :=
  axgxMagic ++ [0, 0, 0, 3] ++ [0, 0, 0, 1]
    ++ ([0, 0, 0, 0] ++ [0, 0, 0, 99] ++ [255, 255, 255, 255])

/-! Helper lemmas. -/

/-- Decidable equality of `Except` values, for evaluating the decoder at the
concrete witness inputs. -/
instance {ε α : Type} [DecidableEq ε] [DecidableEq α] : DecidableEq (Except ε α) :=
  fun x y =>
    match x, y with
    | .error a, .error b =>
      if h : a = b then .isTrue (congrArg Except.error h)
      else .isFalse (fun hc => h (Except.error.inj hc))
    | .ok a, .ok b =>
      if h : a = b then .isTrue (congrArg Except.ok h)
      else .isFalse (fun hc => h (Except.ok.inj hc))
    | .error _, .ok _ => .isFalse (fun hc => Except.noConfusion hc)
    | .ok _, .error _ => .isFalse (fun hc => Except.noConfusion hc)

/-- Invert a successful `Except` bind. -/
theorem except_ok_of_bind {α β : Type} {x : Except Err α} {f : α → Except Err β} {b : β}
    (h : (x >>= f) = .ok b) : ∃ a, x = .ok a ∧ f a = .ok b := by
  cases x with
  | error e => exact absurd h (by simp [Bind.bind, Except.bind])
  | ok a => exact ⟨a, rfl, by simpa [Bind.bind, Except.bind] using h⟩

/-- A successful exact read returns the taken bytes and advances the
position by exactly `n`. -/
theorem readExact_ok {s : ByteStream} {n : ℕ} {out : List ℕ × ByteStream}
    (h : s.readExact n = .ok out) :
    out = ((s.data.drop s.pos).take n, ⟨s.data, s.pos + n⟩) ∧
    ((s.data.drop s.pos).take n).length = n := by
  unfold ByteStream.readExact at h
  by_cases hl : ((s.data.drop s.pos).take n).length = n
  · rw [if_pos hl] at h
    injection h with h
    unfold ByteStream.readBytes at h
    rw [hl] at h
    exact ⟨h.symm, hl⟩
  · rw [if_neg hl] at h
    cases h

/-- A successful 4-byte read advances the position by exactly 4 within the
same data. -/
theorem readI32_ok {bo : ByteOrder} {s s4 : ByteStream} {L : ℤ}
    (h : readI32 bo s = .ok (L, s4)) :
    s4 = ⟨s.data, s.pos + 4⟩ ∧ ((s.data.drop s.pos).take 4).length = 4 := by
  unfold readI32 at h
  obtain ⟨⟨bs, s'⟩, h1, h2⟩ := except_ok_of_bind h
  obtain ⟨hout, hlen⟩ := readExact_ok h1
  have h2' : Except.ok (toSigned 32 (combineBytes bo bs), s') = .ok (L, s4) := h2
  injection h2' with h2''
  have hs' : s' = s4 := congrArg Prod.snd h2''
  have hbs : s' = ⟨s.data, s.pos + 4⟩ := congrArg Prod.snd hout
  exact ⟨hs' ▸ hbs, hlen⟩

/-! Claim C6. -/

/-- Claim C6: rescaling raw event timestamps multiplies each entry by the
sampling period, and rescaling raw epoch durations multiplies each entry by
the sampling period; the global start time `t_start` is never added — both
rescale operations are invariant under any change of `t_start`. -/
theorem claim_C6_rescale_no_tstart (r : HeavyResult) (ts ds : List Frac) :
    rescaleEventTimestamp r ts = ts.map (fun t => Frac.mul t r.samplingPeriod) ∧
    rescaleEpochDuration r ds = ds.map (fun d => Frac.mul d r.samplingPeriod) ∧
    (∀ t0 : Frac,
      rescaleEventTimestamp { r with tStart := t0 } ts = rescaleEventTimestamp r ts) ∧
    (∀ t0 : Frac,
      rescaleEpochDuration { r with tStart := t0 } ds = rescaleEpochDuration r ds) :=
  ⟨rfl, rfl, fun _ => rfl, fun _ => rfl⟩

/-! Claim C8. -/

/-- Claim C8: the length-prefixed text primitive first reads a 4-byte signed
length; if the length is `≤ 0` (including -1) the result is the empty string
and no bytes beyond the 4 length bytes are consumed; if the length is
positive (and available), exactly that many bytes are consumed and decoded
as UTF-16 in the configured byte order. -/
theorem claim_C8_read_string (bo : ByteOrder) (s s4 : ByteStream) (L : ℤ)
    (h : readI32 bo s = .ok (L, s4)) :
    (L ≤ 0 → readString bo s = .ok ([], s4) ∧ s4.pos = s.pos + 4) ∧
    (0 < L → s.pos + 4 + L.toNat ≤ s.data.length →
      readString bo s =
        (utf16Decode bo ((s.data.drop (s.pos + 4)).take L.toNat)).map
          (fun cs => (cs, ⟨s.data, s.pos + 4 + L.toNat⟩))) := by
  obtain ⟨hs4, -⟩ := readI32_ok h
  subst hs4
  constructor
  · intro hL
    have hnot : ¬ 0 < L := not_lt.mpr hL
    refine ⟨?_, rfl⟩
    unfold readString
    rw [h]
    simp [Bind.bind, Except.bind, hnot]
  · intro hL havail
    unfold readString
    rw [h]
    have hlen : ((s.data.drop (s.pos + 4)).take L.toNat).length = L.toNat := by
      simp only [List.length_take, List.length_drop]
      omega
    simp only [Bind.bind, Except.bind, hL, if_pos]
    unfold ByteStream.readBytes
    simp only [hlen]
    cases hdec : utf16Decode bo ((s.data.drop (s.pos + 4)).take L.toNat) with
    | error e => simp [Except.map, hdec]
    | ok cs => simp [Except.map, hdec, Nat.add_assoc]

/-- Witness for claim C8: a length prefix of -1 yields the empty string with
the position advanced exactly 4 bytes; a length prefix of 2 consumes exactly
the 2 string bytes and decodes them as big-endian UTF-16. -/
theorem claim_C8_read_string_witness :
    (readString .big ⟨[255, 255, 255, 255, 77], 0⟩ =
      .ok ([], ⟨[255, 255, 255, 255, 77], 4⟩)) ∧
    (readString .big ⟨[0, 0, 0, 2, 0, 65], 0⟩ =
      (utf16Decode .big [0, 65]).map (fun cs => (cs, ⟨[0, 0, 0, 2, 0, 65], 6⟩))) := by
  constructor
  · exact ((claim_C8_read_string .big ⟨[255, 255, 255, 255, 77], 0⟩
      ⟨[255, 255, 255, 255, 77], 4⟩ (-1) (by decide)).1 (by decide)).1
  · exact (claim_C8_read_string .big ⟨[0, 0, 0, 2, 0, 65], 0⟩
      ⟨[0, 0, 0, 2, 0, 65], 4⟩ 2 (by decide)).2 (by decide) (by decide)

/-! Claim C2 (corrected). -/

/-- Counterexample to claim C2 as stated: for a legacy version-1 file whose
byte stream is not exhausted after the column arrays (one trailing byte),
decoding does NOT continue — header construction fails outright on the
`assert rest_of_the_file == b''` of source line 451. -/
theorem claim_C2_counterexample :
    parseAxograph false wBytesV1Trailing = .error .trailingBytes := by decide

/-- Claim C2 as amended: for a legacy-era file (version 1 or 2), if the byte
stream is not exactly exhausted after the column arrays are read, parsing
fails with the trailing-bytes assertion error and no header is produced. -/
theorem claim_C2_amended_trailing_fatal (bytes : List ℕ) (force : Bool)
    (ver nCols : ℤ) (s1 s2 : ByteStream) (cst : ColState)
    (hh : readHeaderIds ⟨bytes, 0⟩ = .ok (ver, nCols, s1))
    (hver : ver = 1 ∨ ver = 2)
    (hc : parseColumns ver nCols s1 = .ok (cst, s2))
    (hrest : s2.restBytes ≠ []) :
    parseAxograph force bytes = .error .trailingBytes := by
  have hheavy : heavyLifting bytes = .error .trailingBytes := by
    unfold heavyLifting
    rw [hh]
    simp only [Bind.bind, Except.bind, hc]
    simp [hver, hrest]
  unfold parseAxograph
  simp [Bind.bind, Except.bind, hheavy]

/-- Witness for the amended claim C2, at the concrete trailing-byte file. -/
theorem claim_C2_amended_witness :
    parseAxograph true wBytesV1Trailing = .error .trailingBytes := by
  refine claim_C2_amended_trailing_fatal wBytesV1Trailing true 1 2
    ⟨wBytesV1Trailing, 8⟩ ⟨wBytesV1Trailing, 184⟩ ?_ rfl (Or.inl rfl) ?_ ?_
  · exact {
      tStart := some ⟨0, 2 ^ 149⟩
      samplingPeriod := some ⟨2 ^ 172, 2 ^ 172⟩
      sigChannels := [{ name := [], channelId := 1,
                        samplingRate := ⟨2 ^ 172, 2 ^ 172⟩, dtypeCode := 102,
                        units := [], gain := 1, offset := 0, groupId := 0 }]
      sigArrays := [[]] }
  · rfl
  · decide

/-! Claim C5. -/

/-- Claim C5: for a version ≥ 3 column whose type tag lies outside
{9, 4, 5, 6, 7, 10}, the column decoder fails with the
unsupported-column-type error — before the column's channel descriptor or
sample array could be appended — and hence the whole header construction
fails with that error (no signal channel is emitted at all). -/
theorem claim_C5_unsupported_column_type (ver : ℤ) (i : ℕ) (st : ColState)
    (s s2 : ByteStream) (nPoints t : ℤ) (title : List ℕ)
    (hp : readColPrelude ver s = .ok (nPoints, some t, title, s2))
    (hver : 3 ≤ ver)
    (ht : t ∉ ([9, 4, 5, 6, 7, 10] : List ℤ)) :
    parseColumn ver i st s = .error (.unimplementedColumnType t) ∧
    (∀ bytes force nCols s1,
      readHeaderIds ⟨bytes, 0⟩ = .ok (ver, nCols, s1) →
      parseColumns ver nCols s1 = .error (.unimplementedColumnType t) →
      parseAxograph force bytes = .error (.unimplementedColumnType t)) := by
  simp only [List.mem_cons, not_or, List.not_mem_nil] at ht
  obtain ⟨h9, h4, h5, h6, h7, h10, -⟩ := ht
  have hv1 : ¬ ver = 1 := by omega
  have hv2 : ¬ ver = 2 := by omega
  constructor
  · unfold parseColumn
    rw [hp]
    simp only [Bind.bind, Except.bind]
    unfold parseColumnBody
    simp [hv1, hv2, hver, h9, h4, h5, h6, h7, h10]
  · intro bytes force nCols s1 hh hc
    have hheavy : heavyLifting bytes = .error (.unimplementedColumnType t) := by
      unfold heavyLifting
      rw [hh]
      simp [Bind.bind, Except.bind, hc]
    unfold parseAxograph
    simp [Bind.bind, Except.bind, hheavy]

/-- Witness for claim C5: the concrete version-3 file whose column 0 has
type tag 99 fails end to end with the unsupported-column-type error. -/
theorem claim_C5_witness :
    parseAxograph false wBytesBadType = .error (.unimplementedColumnType 99) := by
  have h := claim_C5_unsupported_column_type 3 0 initColState
    ⟨wBytesBadType, 12⟩ ⟨wBytesBadType, 24⟩ 0 99 [] rfl (by decide) (by decide)
  exact h.2 wBytesBadType false 1 ⟨wBytesBadType, 12⟩ rfl rfl

/-! Inversion of the column decoder. -/

/-- A successful channel append requires a bound sampling period and appends
exactly one channel descriptor and one sample array. -/
theorem appendChannel_ok {st : ColState} {i : ℕ} {nm un : List ℕ} {dt : DType}
    {g o : Frac} {arr : List Frac} {st' : ColState}
    (h : appendChannel st i nm un dt g o arr = .ok st') :
    ∃ sp, st.samplingPeriod = some sp ∧
      st' = { st with
        sigChannels := st.sigChannels ++
          [{ name := nm, channelId := i, samplingRate := Frac.div 1 sp,
             dtypeCode := dt.charCode, units := un, gain := g, offset := o,
             groupId := 0 }],
        sigArrays := st.sigArrays ++ [arr] } := by
  unfold appendChannel at h
  rcases hsp : st.samplingPeriod with _ | sp
  · rw [hsp] at h
    cases h
  · rw [hsp] at h
    injection h with h
    exact ⟨sp, rfl, h.symm⟩

/-- A zero point count reads no bytes and yields the empty sample array. -/
theorem readSampleArray_zero (dt : DType) (s : ByteStream) :
    readSampleArray dt 0 s = .ok ([], s) := rfl

/-- Case analysis of a successful column decode: either it was the time
column (column 0), which records exactly the first value and increment given
by `col0TimeParamsBody` and emits nothing, or exactly one channel descriptor
and one sample array are appended, the descriptor's id is the column index,
a zero point count yields an empty array, and every column kind that does
not declare scaling (version-1 floats; version ≥ 3 tags 4, 5, 6, 7) gets
gain 1 and offset 0. -/
theorem parseColumnBody_cases (ver : ℤ) (i : ℕ) (st : ColState) (nPoints : ℤ)
    (colType : Option ℤ) (title : List ℕ) (s : ByteStream) (stOut : ColState)
    (sOut : ByteStream)
    (hc : parseColumnBody ver i st nPoints colType title s = .ok (stOut, sOut)) :
    (i = 0 ∧ ∃ fv inc,
      stOut = { st with tStart := some fv, samplingPeriod := some inc } ∧
      col0TimeParamsBody ver nPoints colType s = .ok (fv, inc)) ∨
    (∃ ch arr,
      stOut = { st with sigChannels := st.sigChannels ++ [ch],
                        sigArrays := st.sigArrays ++ [arr] } ∧
      ch.channelId = i ∧ st.samplingPeriod.isSome = true ∧
      (nPoints = 0 → arr = []) ∧
      ((ver = 1 ∨ (3 ≤ ver ∧ (colType = some 4 ∨ colType = some 5 ∨
          colType = some 6 ∨ colType = some 7))) →
        ch.gain = 1 ∧ ch.offset = 0)) := by
  unfold parseColumnBody at hc
  by_cases hv1 : ver = 1
  · rw [if_pos hv1] at hc
    by_cases hi : i = 0
    · rw [if_pos hi] at hc
      obtain ⟨⟨arr, s'⟩, hr, hc⟩ := except_ok_of_bind hc
      rcases arr with _ | ⟨a, rest⟩
      · exact Except.noConfusion hc
      · injection hc with hc''
        refine Or.inl ⟨hi, a, medianFrac (diffFrac (a :: rest)),
          (congrArg Prod.fst hc'').symm, ?_⟩
        unfold col0TimeParamsBody
        rw [if_pos hv1]
        simp [Bind.bind, Except.bind, hr]
    · rw [if_neg hi] at hc
      obtain ⟨⟨arr, s'⟩, hr, hc⟩ := except_ok_of_bind hc
      obtain ⟨st'', happ, hc⟩ := except_ok_of_bind hc
      obtain ⟨sp, hsp, hst⟩ := appendChannel_ok happ
      injection hc with hc''
      have hso : stOut = st'' := (congrArg Prod.fst hc'').symm
      refine Or.inr ⟨_, arr, hso.trans hst, rfl, by rw [hsp]; rfl, ?_,
        fun _ => ⟨rfl, rfl⟩⟩
      intro h0
      rw [h0, readSampleArray_zero] at hr
      injection hr with hr
      exact (congrArg Prod.fst hr).symm
  · rw [if_neg hv1] at hc
    by_cases hv2 : ver = 2
    · rw [if_pos hv2] at hc
      by_cases hi : i = 0
      · rw [if_pos hi] at hc
        obtain ⟨⟨fv, s'⟩, hr1, hc⟩ := except_ok_of_bind hc
        obtain ⟨⟨inc, s''⟩, hr2, hc⟩ := except_ok_of_bind hc
        dsimp only at hc
        by_cases hz : inc.isZero = true
        · rw [if_pos hz] at hc
          exact Except.noConfusion hc
        · rw [if_neg hz] at hc
          injection hc with hc''
          refine Or.inl ⟨hi, fv, inc, (congrArg Prod.fst hc'').symm, ?_⟩
          unfold col0TimeParamsBody
          rw [if_neg hv1, if_pos hv2]
          simp [Bind.bind, Except.bind, hr1, hr2, hz]
      · rw [if_neg hi] at hc
        obtain ⟨⟨g, s'⟩, hr1, hc⟩ := except_ok_of_bind hc
        obtain ⟨⟨arr, s''⟩, hr, hc⟩ := except_ok_of_bind hc
        obtain ⟨st'', happ, hc⟩ := except_ok_of_bind hc
        obtain ⟨sp, hsp, hst⟩ := appendChannel_ok happ
        injection hc with hc''
        have hso : stOut = st'' := (congrArg Prod.fst hc'').symm
        refine Or.inr ⟨_, arr, hso.trans hst, rfl, by rw [hsp]; rfl, ?_, ?_⟩
        · intro h0
          rw [h0, readSampleArray_zero] at hr
          injection hr with hr
          exact (congrArg Prod.fst hr).symm
        · rintro (h1 | ⟨h3, -⟩)
          · exact absurd h1 hv1
          · omega
    · rw [if_neg hv2] at hc
      by_cases hv3 : 3 ≤ ver
      · rw [if_pos hv3] at hc
        rcases colType with _ | t
        · exact Except.noConfusion hc
        · dsimp only at hc
          by_cases h9 : t = 9
          · rw [if_pos h9] at hc
            obtain ⟨⟨fv, s'⟩, hr1, hc⟩ := except_ok_of_bind hc
            obtain ⟨⟨inc, s''⟩, hr2, hc⟩ := except_ok_of_bind hc
            dsimp only at hc
            by_cases hz : inc.isZero = true
            · rw [if_pos hz] at hc
              exact Except.noConfusion hc
            · rw [if_neg hz] at hc
              by_cases hi : i = 0
              · rw [if_pos hi] at hc
                injection hc with hc''
                refine Or.inl ⟨hi, fv, inc, (congrArg Prod.fst hc'').symm, ?_⟩
                unfold col0TimeParamsBody
                rw [if_neg hv1, if_neg hv2, if_pos hv3]
                simp [Bind.bind, Except.bind, hr1, hr2, hz, h9]
              · rw [if_neg hi] at hc
                exact Except.noConfusion hc
          · rw [if_neg h9] at hc
            have hstep : ∀ (dt : DType) (g o : Frac) {s0 : ByteStream}
                (hc0 : (do
                  let (arr, s) ← readSampleArray dt nPoints s0
                  let st ← appendChannel st i (splitTitle title).1
                    (splitTitle title).2 dt g o arr
                  (.ok (st, s) : Except Err (ColState × ByteStream))) =
                    .ok (stOut, sOut)),
                ∃ arr sp,
                  st.samplingPeriod = some sp ∧
                  stOut = { st with
                    sigChannels := st.sigChannels ++
                      [{ name := (splitTitle title).1, channelId := i,
                         samplingRate := Frac.div 1 sp, dtypeCode := dt.charCode,
                         units := (splitTitle title).2, gain := g, offset := o,
                         groupId := 0 }],
                    sigArrays := st.sigArrays ++ [arr] } ∧
                  (nPoints = 0 → arr = []) := by
              intro dt g o s0 hc0
              obtain ⟨⟨arr, s'⟩, hr, hc0⟩ := except_ok_of_bind hc0
              obtain ⟨st'', happ, hc0⟩ := except_ok_of_bind hc0
              obtain ⟨sp, hsp, hst⟩ := appendChannel_ok happ
              injection hc0 with hc0''
              have hso : stOut = st'' := (congrArg Prod.fst hc0'').symm
              refine ⟨arr, sp, hsp, hso.trans hst, ?_⟩
              intro h0
              rw [h0, readSampleArray_zero] at hr
              injection hr with hr
              exact (congrArg Prod.fst hr).symm
            by_cases h4 : t = 4
            · rw [if_pos h4] at hc
              obtain ⟨arr, sp, hsp, hst, hz⟩ := hstep .int16 1 0 hc
              exact Or.inr ⟨_, arr, hst, rfl, by rw [hsp]; rfl, hz,
                fun _ => ⟨rfl, rfl⟩⟩
            · rw [if_neg h4] at hc
              by_cases h5 : t = 5
              · rw [if_pos h5] at hc
                obtain ⟨arr, sp, hsp, hst, hz⟩ := hstep .int32 1 0 hc
                exact Or.inr ⟨_, arr, hst, rfl, by rw [hsp]; rfl, hz,
                  fun _ => ⟨rfl, rfl⟩⟩
              · rw [if_neg h5] at hc
                by_cases h6 : t = 6
                · rw [if_pos h6] at hc
                  obtain ⟨arr, sp, hsp, hst, hz⟩ := hstep .float32 1 0 hc
                  exact Or.inr ⟨_, arr, hst, rfl, by rw [hsp]; rfl, hz,
                    fun _ => ⟨rfl, rfl⟩⟩
                · rw [if_neg h6] at hc
                  by_cases h7 : t = 7
                  · rw [if_pos h7] at hc
                    obtain ⟨arr, sp, hsp, hst, hz⟩ := hstep .float64 1 0 hc
                    exact Or.inr ⟨_, arr, hst, rfl, by rw [hsp]; rfl, hz,
                      fun _ => ⟨rfl, rfl⟩⟩
                  · rw [if_neg h7] at hc
                    by_cases h10 : t = 10
                    · rw [if_pos h10] at hc
                      obtain ⟨⟨g, sa⟩, hrg, hc⟩ := except_ok_of_bind hc
                      obtain ⟨⟨o, sb⟩, hro, hc⟩ := except_ok_of_bind hc
                      obtain ⟨arr, sp, hsp, hst, hz⟩ := hstep .int16 g o hc
                      refine Or.inr ⟨_, arr, hst, rfl, by rw [hsp]; rfl, hz, ?_⟩
                      rintro (h1 | ⟨-, hck⟩)
                      · exact absurd h1 hv1
                      · rcases hck with hck | hck | hck | hck <;>
                          · injection hck with hck
                            omega
                    · rw [if_neg h10] at hc
                      exact Except.noConfusion hc
      · rw [if_neg hv3] at hc
        exact Except.noConfusion hc

/-- A successful column decode factors through the body at the prelude's
output. -/
theorem parseColumn_body_of_ok {ver : ℤ} {i : ℕ} {st : ColState}
    {s s2 : ByteStream} {nPoints : ℤ} {colType : Option ℤ} {title : List ℕ}
    {out : ColState × ByteStream}
    (hp : readColPrelude ver s = .ok (nPoints, colType, title, s2))
    (hc : parseColumn ver i st s = .ok out) :
    parseColumnBody ver i st nPoints colType title s2 = .ok out := by
  unfold parseColumn at hc
  rw [hp] at hc
  simpa [Bind.bind, Except.bind] using hc

/-! Claim C7. -/

/-- Claim C7: a channel decoded from a column kind that declares no scaling
(version-1 float columns; version ≥ 3 type tags 4, 5, 6, 7) carries gain 1
and offset 0 in the channel table, so the affine sample rescaling
`s * gain + offset` is the identity on sample values for that channel. -/
theorem claim_C7_identity_scaling (ver : ℤ) (i : ℕ) (st stOut : ColState)
    (s s2 sOut : ByteStream) (nPoints : ℤ) (colType : Option ℤ)
    (title : List ℕ) (ch : SigChannel)
    (hp : readColPrelude ver s = .ok (nPoints, colType, title, s2))
    (hc : parseColumn ver i st s = .ok (stOut, sOut))
    (hk : ver = 1 ∨ (3 ≤ ver ∧ (colType = some 4 ∨ colType = some 5 ∨
        colType = some 6 ∨ colType = some 7)))
    (hch : stOut.sigChannels = st.sigChannels ++ [ch]) :
    ch.gain = 1 ∧ ch.offset = 0 ∧
    ∀ q : Frac, (rescaleSignalSample ch q).valEq q = true := by
  have hc' := parseColumn_body_of_ok hp hc
  rcases parseColumnBody_cases ver i st nPoints colType title s2 stOut sOut hc'
    with ⟨-, fv, inc, hsto, -⟩ | ⟨ch', arr, hsto, -, -, -, hg⟩
  · rw [hsto] at hch
    have := congrArg List.length hch
    simp at this
  · rw [hsto] at hch
    have hch' : ch' = ch := by
      have := List.append_cancel_left hch
      injection this
    obtain ⟨hgain, hoff⟩ := hg hk
    rw [hch'] at hgain hoff
    refine ⟨hgain, hoff, fun q => ?_⟩
    rw [rescaleSignalSample, hgain, hoff]
    show (Frac.add (Frac.mul q 1) 0).valEq q = true
    simp only [Frac.add, Frac.mul, Frac.valEq,
      show (1 : Frac) = ⟨1, 1⟩ from rfl, show (0 : Frac) = ⟨0, 1⟩ from rfl,
      beq_iff_eq]
    ring

/-- Witness input for claim C7: a version-3 type-6 (unscaled float) column
with one sample. -/
def wC7Bytes : List ℕ :=
  [0, 0, 0, 1] ++ [0, 0, 0, 6] ++ [255, 255, 255, 255] ++ [63, 128, 0, 0]

/-- A column-loop state with the time column already seen. -/
def wStateSp : ColState := ⟨some ⟨0, 1⟩, some ⟨1, 1⟩, [], []⟩

/-- The channel the witness column produces. -/
def wC7Chan : SigChannel :=
  { name := [], channelId := 1, samplingRate := ⟨1, 1⟩, dtypeCode := 102,
    units := [], gain := 1, offset := 0, groupId := 0 }

/-- The state after the witness column. -/
def wC7StOut : ColState :=
  ⟨some ⟨0, 1⟩, some ⟨1, 1⟩, [wC7Chan], [[⟨2 ^ 23, 2 ^ 23⟩]]⟩

/-- Witness for claim C7: the concrete type-6 column yields gain 1 and
offset 0, and rescaling the sample value 7/2 returns 7/2. -/
theorem claim_C7_witness :
    wC7Chan.gain = 1 ∧ wC7Chan.offset = 0 ∧
    (rescaleSignalSample wC7Chan ⟨7, 2⟩).valEq ⟨7, 2⟩ = true := by
  have h := claim_C7_identity_scaling 3 1 wStateSp wC7StOut ⟨wC7Bytes, 0⟩
    ⟨wC7Bytes, 12⟩ ⟨wC7Bytes, 16⟩ 1 (some 6) [] wC7Chan (by decide) (by decide)
    (Or.inr ⟨by decide, Or.inr (Or.inr (Or.inl rfl))⟩) (by decide)
  exact ⟨h.1, h.2.1, h.2.2 ⟨7, 2⟩⟩

/-! Claim C9. -/

/-- Claim C9: a column whose point count is 0 decodes without error, and if
it contributes a sample array at all (i.e. it is not the skipped time
column), that array is empty. -/
theorem claim_C9_zero_points (ver : ℤ) (i : ℕ) (st stOut : ColState)
    (s s2 sOut : ByteStream) (colType : Option ℤ) (title : List ℕ)
    (hp : readColPrelude ver s = .ok (0, colType, title, s2))
    (hc : parseColumn ver i st s = .ok (stOut, sOut)) :
    (stOut.sigChannels.length = st.sigChannels.length + 1 ∧
      stOut.sigArrays = st.sigArrays ++ [[]]) ∨
    (stOut.sigChannels = st.sigChannels ∧ stOut.sigArrays = st.sigArrays) := by
  have hc' := parseColumn_body_of_ok hp hc
  rcases parseColumnBody_cases ver i st 0 colType title s2 stOut sOut hc'
    with ⟨-, fv, inc, hsto, -⟩ | ⟨ch, arr, hsto, -, -, hz, -⟩
  · exact Or.inr ⟨by rw [hsto], by rw [hsto]⟩
  · left
    rw [hz rfl] at hsto
    rw [hsto]
    constructor
    · simp
    · rfl

/-- The column-loop state after the time column of `wBytesV1`. -/
def wColStateAfter0 : ColState :=
  ⟨some ⟨0, 2 ^ 149⟩, some ⟨2 ^ 172, 2 ^ 172⟩, [], []⟩

/-- The signal channel produced by the empty column of `wBytesV1`. -/
def wChanV1 : SigChannel :=
  { name := [], channelId := 1, samplingRate := ⟨2 ^ 172, 2 ^ 172⟩,
    dtypeCode := 102, units := [], gain := 1, offset := 0, groupId := 0 }

/-- The column-loop state after the empty column of `wBytesV1`. -/
def wColStateAfter1 : ColState :=
  ⟨some ⟨0, 2 ^ 149⟩, some ⟨2 ^ 172, 2 ^ 172⟩, [wChanV1], [[]]⟩

/-- Witness for claim C9: the concrete version-1 column with point count 0
decodes successfully and produces the empty sample array. -/
theorem claim_C9_witness :
    parseColumn 1 1 wColStateAfter0 ⟨wBytesV1, 100⟩ =
      .ok (wColStateAfter1, ⟨wBytesV1, 184⟩) ∧
    wColStateAfter1.sigArrays = [[]] := by
  refine ⟨by decide, ?_⟩
  have h := claim_C9_zero_points 1 1 wColStateAfter0 wColStateAfter1
    ⟨wBytesV1, 100⟩ ⟨wBytesV1, 184⟩ ⟨wBytesV1, 184⟩ none [] (by decide) (by decide)
  rcases h with ⟨-, harr⟩ | ⟨hchan, -⟩
  · simpa using harr
  · exact absurd (congrArg List.length hchan) (by decide)

/-! Claim C10. -/

/-- Everything a successful heavy lifting guarantees about its result. -/
theorem heavyLifting_spec {bytes : List ℕ} {r : HeavyResult}
    (h : heavyLifting bytes = .ok r) :
    ∃ ver nCols s1 cst s2,
      readHeaderIds ⟨bytes, 0⟩ = .ok (ver, nCols, s1) ∧
      parseColumns ver nCols s1 = .ok (cst, s2) ∧
      cst.tStart = some r.tStart ∧ cst.samplingPeriod = some r.samplingPeriod ∧
      r.header.signalChannels = cst.sigChannels ∧
      r.header.nbBlock = 1 ∧ r.header.nbSegment = [1] ∧
      r.rawSignals = [cst.sigArrays] := by
  unfold heavyLifting at h
  obtain ⟨⟨ver, nCols, s1⟩, h1, h⟩ := except_ok_of_bind h
  obtain ⟨⟨cst, s2⟩, h2, h⟩ := except_ok_of_bind h
  obtain ⟨info, h3, h⟩ := except_ok_of_bind h
  refine ⟨ver, nCols, s1, cst, s2, h1, h2, ?_⟩
  rcases ht : cst.tStart with _ | t0 <;> rcases hsp : cst.samplingPeriod with _ | sp <;>
    rw [ht, hsp] at h
  · exact Except.noConfusion h
  · exact Except.noConfusion h
  · exact Except.noConfusion h
  · injection h with h''
    subst h''
    exact ⟨rfl, rfl, rfl, rfl, rfl, rfl⟩

/-- With `force_single_segment`, `_parse_header` is exactly the heavy
lifting: the heuristic is never consulted. -/
theorem parseAxograph_true_eq (bytes : List ℕ) :
    parseAxograph true bytes = heavyLifting bytes := by
  unfold parseAxograph
  cases h : heavyLifting bytes with
  | error e => simp [Bind.bind, Except.bind]
  | ok r => simp [Bind.bind, Except.bind, finishHeader]

/-- Claim C10: constructed with `force_single_segment = True`, the decoder
never consults the episodic heuristic — parsing is literally the heavy
lifting, whose header always has exactly one segment — so every successful
parse yields `nb_segment = [1]`, even for a file the heuristic would accept
as episodic. -/
theorem claim_C10_force_single_segment (bytes : List ℕ) (r : HeavyResult)
    (h : parseAxograph true bytes = .ok r) :
    r.header.nbSegment = [1] ∧ heavyLifting bytes = .ok r := by
  rw [parseAxograph_true_eq] at h
  obtain ⟨ver, nCols, s1, cst, s2, -, -, -, -, -, -, hseg, -⟩ := heavyLifting_spec h
  exact ⟨hseg, h⟩

/-- Witness for claim C10: the concrete version-1 file parsed with
`force_single_segment` yields a single segment. -/
theorem claim_C10_witness :
    (parseAxograph true wBytesV1).map (fun r => r.header.nbSegment) = .ok [1] := by
  obtain ⟨r, hr⟩ : ∃ r, parseAxograph true wBytesV1 = .ok r := ⟨_, rfl⟩
  rw [hr]
  have := (claim_C10_force_single_segment wBytesV1 r hr).1
  simp [Except.map, this]

/-! Claim C4. -/

/-- Membership survives `dedupBy (· == ·)` up to the already-seen list. -/
theorem mem_dedupByAux_nat (l : List ℕ) : ∀ (seen : List ℕ) (x : ℕ), x ∈ l →
    x ∈ seen ∨ x ∈ dedupByAux (· == ·) seen l := by
  induction l with
  | nil => intro seen x hx; exact absurd hx (List.not_mem_nil x)
  | cons a t ih =>
    intro seen x hx
    have hmem : ∀ s : List ℕ, (s.any (fun y => y == a) = true) ↔ a ∈ s := by
      intro s
      simp [List.any_eq_true]
    unfold dedupByAux
    by_cases hs : seen.any (fun y => y == a) = true
    · rw [if_pos hs]
      rcases List.mem_cons.mp hx with rfl | hxt
      · exact Or.inl ((hmem seen).mp hs)
      · exact ih seen x hxt
    · rw [if_neg hs]
      rcases List.mem_cons.mp hx with rfl | hxt
      · exact Or.inr (List.mem_cons_self _ _)
      · rcases ih (a :: seen) x hxt with hseen | hdedup
        · rcases List.mem_cons.mp hseen with rfl | h2
          · exact Or.inr (List.mem_cons_self _ _)
          · exact Or.inl h2
        · exact Or.inr (List.mem_cons_of_mem _ hdedup)

/-- Two distinct members force length at least 2. -/
theorem two_le_length_of_two_mem {l : List ℕ} {a b : ℕ} (ha : a ∈ l)
    (hb : b ∈ l) (hab : a ≠ b) : 2 ≤ l.length := by
  rcases l with _ | ⟨x, _ | ⟨y, t⟩⟩
  · exact absurd ha (List.not_mem_nil a)
  · rw [List.mem_singleton] at ha hb
    exact absurd (ha.trans hb.symm) hab
  · simp only [List.length_cons]
    omega

/-- Claim C4: whenever two groups contain differing numbers of traces, the
episodic heuristic rejects episodic structure at the equal-group-size check
(returning `False` there, short-circuiting: the remaining checks are never
evaluated, so the result holds for every channel table — even one the
uniform-parameters check could not index), and `_parse_header` keeps the
heavy-lifting layout unchanged: the original single segment with every
decoded channel in original column order. -/
theorem claim_C4_heuristic_rejects (r : HeavyResult) (g1 g2 : ℤ)
    (hver : 3 ≤ r.info.formatVer)
    (hg1 : g1 ∈ r.info.groupIds) (hg2 : g2 ∈ r.info.groupIds)
    (hne : (r.info.traces.filter (fun t => t.groupId == g1)).length ≠
           (r.info.traces.filter (fun t => t.groupId == g2)).length) :
    safeToTreatAsEpisodic r.info r.header.signalChannels = .ok false ∧
    finishHeader false r = .ok r := by
  have hres : safeToTreatAsEpisodic r.info r.header.signalChannels = .ok false := by
    unfold safeToTreatAsEpisodic
    rw [if_neg (not_lt.mpr hver)]
    dsimp only
    set counts := (r.info.groupIds.map (fun g =>
      (r.info.traces.filter (fun t => t.groupId == g)).map (·.yIndex))).map
      (·.length) with hcounts
    have hc1 : (r.info.traces.filter (fun t => t.groupId == g1)).length ∈ counts := by
      rw [hcounts, List.map_map]
      exact List.mem_map.mpr ⟨g1, hg1, by simp⟩
    have hc2 : (r.info.traces.filter (fun t => t.groupId == g2)).length ∈ counts := by
      rw [hcounts, List.map_map]
      exact List.mem_map.mpr ⟨g2, hg2, by simp⟩
    have hd1 := (mem_dedupByAux_nat counts [] _ hc1).resolve_left
      (List.not_mem_nil _)
    have hd2 := (mem_dedupByAux_nat counts [] _ hc2).resolve_left
      (List.not_mem_nil _)
    have hlen : 2 ≤ (dedupBy (· == ·) counts).length :=
      two_le_length_of_two_mem hd1 hd2 hne
    rw [if_pos (by omega)]
  refine ⟨hres, ?_⟩
  unfold finishHeader
  simp [Bind.bind, Except.bind, hres]

/-- Witness input for claim C4: two groups with 1 and 2 traces; the channel
table is empty, which the skipped uniform-parameters check could not even
index. -/
def wBadCounts : HeavyResult :=
  { header := { nbBlock := 1, nbSegment := [1], signalChannels := [] },
    tStart := ⟨0, 1⟩, samplingPeriod := ⟨1, 1⟩,
    rawSignals := [[]],
    info := { formatVer := 4, nEpisodes := 2, groupIds := [0, 1],
              traces := [⟨1, 0⟩, ⟨2, 1⟩, ⟨3, 1⟩] } }

/-- Witness for claim C4 at the concrete unbalanced grouping. -/
theorem claim_C4_witness :
    safeToTreatAsEpisodic wBadCounts.info wBadCounts.header.signalChannels =
      .ok false ∧
    finishHeader false wBadCounts = .ok wBadCounts :=
  claim_C4_heuristic_rejects wBadCounts 0 1 (by decide) (by decide) (by decide)
    (by decide)

/-! Claim C1. -/

/-- Loop invariant of the column loop from a non-zero column index: the time
parameters are never touched again, and each remaining column appends
exactly one channel whose id is its column index. -/
theorem parseColumnsAux_ids (ver : ℤ) : ∀ (count i : ℕ) (st : ColState)
    (s : ByteStream) (out : ColState × ByteStream),
    1 ≤ i → parseColumnsAux ver count i st s = .ok out →
    out.1.tStart = st.tStart ∧ out.1.samplingPeriod = st.samplingPeriod ∧
    out.1.sigChannels.map (·.channelId) =
      st.sigChannels.map (·.channelId) ++ List.range' i count := by
  intro count
  induction count with
  | zero =>
    intro i st s out hi h
    unfold parseColumnsAux at h
    injection h with h
    subst h
    exact ⟨rfl, rfl, by simp [List.range']⟩
  | succ n ih =>
    intro i st s out hi h
    unfold parseColumnsAux at h
    obtain ⟨⟨st1, s1⟩, h1, h2⟩ := except_ok_of_bind h
    unfold parseColumn at h1
    obtain ⟨⟨nP, ct, ti, sPre⟩, hp, hb⟩ := except_ok_of_bind h1
    rcases parseColumnBody_cases ver i st nP ct ti sPre st1 s1 hb
      with ⟨hi0, -⟩ | ⟨ch, arr, hsto, hid, -, -, -⟩
    · omega
    · obtain ⟨iht, ihsp, ihids⟩ := ih (i + 1) st1 s1 out (by omega) h2
      subst hsto
      refine ⟨iht, ihsp, ?_⟩
      rw [ihids]
      simp only [List.map_append, List.map_cons, List.map_nil, hid,
        List.append_assoc, List.cons_append, List.nil_append]
      rw [List.range'_succ]

/-- A successful column section whose state carries a bound `t_start` and
`sampling_period` got them from column 0 — they equal that column's first
value and increment — and emits exactly the channels with ids
`1 .. n_cols - 1` in order. -/
theorem parseColumns_time (ver nCols : ℤ) (s : ByteStream) (cst : ColState)
    (s2 : ByteStream) (t0 sp : Frac)
    (h : parseColumns ver nCols s = .ok (cst, s2))
    (ht : cst.tStart = some t0) (hsp : cst.samplingPeriod = some sp) :
    col0TimeParams ver s = .ok (t0, sp) ∧
    cst.sigChannels.map (·.channelId) = List.range' 1 (nCols.toNat - 1) := by
  unfold parseColumns at h
  rcases hn : nCols.toNat with _ | m
  · rw [hn] at h
    unfold parseColumnsAux at h
    injection h with h
    have hcst : cst = initColState := congrArg Prod.fst h.symm
    rw [hcst] at ht
    exact absurd ht (by simp [initColState])
  · rw [hn] at h
    unfold parseColumnsAux at h
    obtain ⟨⟨st1, s1⟩, h1, h2⟩ := except_ok_of_bind h
    unfold parseColumn at h1
    obtain ⟨⟨nP, ct, ti, sPre⟩, hp, hb⟩ := except_ok_of_bind h1
    rcases parseColumnBody_cases ver 0 initColState nP ct ti sPre st1 s1 hb
      with ⟨-, fv, inc, hsto, hcol⟩ | ⟨ch, arr, -, -, hsome, -, -⟩
    · obtain ⟨iht, ihsp, ihids⟩ :=
        parseColumnsAux_ids ver m (0 + 1) st1 s1 (cst, s2) (by omega) h2
      have hfv : some fv = some t0 := by
        rw [← ht, iht, hsto]
      have hinc : some inc = some sp := by
        rw [← hsp, ihsp, hsto]
      injection hfv with hfv
      injection hinc with hinc
      subst hfv
      subst hinc
      constructor
      · unfold col0TimeParams
        rw [hp]
        simpa [Bind.bind, Except.bind] using hcol
      · rw [ihids, hsto]
        simp [initColState]
    · exact absurd hsome (by simp [initColState])

/-- `_parse_header`'s decision either keeps the heavy-lifting result or
replaces it by a successful episodic conversion. -/
theorem finishHeader_cases {force : Bool} {hv r : HeavyResult}
    (h : finishHeader force hv = .ok r) :
    r = hv ∨ convertToMultiSegment hv = .ok r := by
  unfold finishHeader at h
  cases force with
  | true =>
    injection h with h
    exact Or.inl h.symm
  | false =>
    obtain ⟨b, hb, h2⟩ := except_ok_of_bind h
    cases b with
    | true =>
      rw [if_pos rfl] at h2
      exact Or.inr h2
    | false =>
      rw [if_neg Bool.false_ne_true] at h2
      injection h2 with h2
      exact Or.inl h2.symm

/-- The episodic conversion never touches the time parameters and keeps a
prefix of the channel table. -/
theorem convert_preserves {hv r : HeavyResult}
    (h : convertToMultiSegment hv = .ok r) :
    r.tStart = hv.tStart ∧ r.samplingPeriod = hv.samplingPeriod ∧
    r.header.nbSegment = [hv.info.nEpisodes] ∧
    ∃ k, r.header.signalChannels = hv.header.signalChannels.take k := by
  unfold convertToMultiSegment at h
  dsimp only at h
  by_cases hcond : hv.info.nEpisodes ≤ 0 ∨ hv.header.signalChannels.length = 0 ∨
      ¬(hv.info.nEpisodes.toNat ∣ hv.header.signalChannels.length)
  · rw [if_pos hcond] at h
    exact Except.noConfusion h
  · rw [if_neg hcond] at h
    rcases hrs : hv.rawSignals with _ | ⟨sigs0, rest⟩ <;> rw [hrs] at h
    · exact Except.noConfusion h
    · injection h with h
      subst h
      exact ⟨rfl, rfl, rfl, _, rfl⟩

/-- Claim C1: in every successfully parsed file of any format version,
column 0 is the time axis — its first value and increment (as
`col0TimeParams` reads them off the stream right after the file ids) are
exactly the stored `t_start` and `sampling_period` — and column 0 is never
an entry of the signal-channel table: the heavy-lifting table is exactly
the columns `1 .. n_cols - 1` in order, and every channel the final header
exposes has an id in `1 .. n_cols - 1` (never 0). -/
theorem claim_C1_time_axis (force : Bool) (bytes : List ℕ) (r : HeavyResult)
    (ver nCols : ℤ) (s1 : ByteStream)
    (hh : readHeaderIds ⟨bytes, 0⟩ = .ok (ver, nCols, s1))
    (h : parseAxograph force bytes = .ok r) :
    col0TimeParams ver s1 = .ok (r.tStart, r.samplingPeriod) ∧
    (∀ ch ∈ r.header.signalChannels,
      1 ≤ ch.channelId ∧ (ch.channelId : ℤ) < nCols) ∧
    (∀ hv, heavyLifting bytes = .ok hv →
      hv.header.signalChannels.map (·.channelId) =
        List.range' 1 (nCols.toNat - 1)) := by
  unfold parseAxograph at h
  obtain ⟨hv, hheavy, hfin⟩ := except_ok_of_bind h
  obtain ⟨ver', nCols', s1', cst, s2, hh', hcols, hts, hsps, hchan, -, -, -⟩ :=
    heavyLifting_spec hheavy
  rw [hh] at hh'
  injection hh' with htup
  have hverEq : ver = ver' := congrArg Prod.fst htup
  have hncolsEq : nCols = nCols' := congrArg (fun p => p.2.1) htup
  have hs1Eq : s1 = s1' := congrArg (fun p => p.2.2) htup
  subst hverEq
  subst hncolsEq
  subst hs1Eq
  obtain ⟨hcol0, hids⟩ := parseColumns_time ver nCols s1 cst s2 _ _ hcols hts hsps
  have hidshv : hv.header.signalChannels.map (·.channelId) =
      List.range' 1 (nCols.toNat - 1) := by
    rw [hchan, hids]
  have hboundshv : ∀ ch ∈ hv.header.signalChannels,
      1 ≤ ch.channelId ∧ (ch.channelId : ℤ) < nCols := by
    intro ch hch
    have hmem : ch.channelId ∈ hv.header.signalChannels.map (·.channelId) :=
      List.mem_map_of_mem _ hch
    rw [hidshv] at hmem
    have hb := List.mem_range'_1.mp hmem
    have hle : 1 ≤ nCols.toNat - 1 := by
      rcases Nat.eq_zero_or_pos (nCols.toNat - 1) with h0 | h1
      · rw [h0] at hmem
        exact absurd hmem (by simp [List.range'])
      · exact h1
    constructor
    · exact hb.1
    · omega
  rcases finishHeader_cases hfin with hr | hconv
  · subst hr
    exact ⟨hcol0, hboundshv, fun hv' hv'eq => by
      rw [hheavy] at hv'eq
      injection hv'eq with hv'eq
      rw [← hv'eq, hidshv]⟩
  · obtain ⟨hts', hsps', -, k, hchk⟩ := convert_preserves hconv
    refine ⟨by rw [hts', hsps']; exact hcol0, ?_, fun hv' hv'eq => by
      rw [hheavy] at hv'eq
      injection hv'eq with hv'eq
      rw [← hv'eq, hidshv]⟩
    intro ch hch
    rw [hchk] at hch
    exact hboundshv ch (List.mem_of_mem_take hch)

/-! Claim C3. -/

/-- A successful effectful map visits every element successfully. -/
theorem exMapM_ok_forall {α β : Type} (f : α → Except Err β) :
    ∀ (l : List α) (ys : List β), exMapM f l = .ok ys →
    ∀ x ∈ l, ∃ y, f x = .ok y := by
  intro l
  induction l with
  | nil => intro ys h x hx; exact absurd hx (List.not_mem_nil x)
  | cons a t ih =>
    intro ys h x hx
    unfold exMapM at h
    obtain ⟨y, hy, h2⟩ := except_ok_of_bind h
    obtain ⟨ys', hys', -⟩ := except_ok_of_bind h2
    rcases List.mem_cons.mp hx with rfl | hxt
    · exact ⟨y, hy⟩
    · exact ih ys' hys' x hxt

/-- If the dedup has exactly one element, every list element equals it. -/
theorem dedupBy_length_one {l : List ℕ}
    (h : (dedupBy (· == ·) l).length = 1) :
    ∀ x ∈ l, x = (dedupBy (· == ·) l).headD 0 := by
  intro x hx
  have hmem : x ∈ dedupBy (· == ·) l :=
    (mem_dedupByAux_nat l [] x hx).resolve_left (List.not_mem_nil x)
  rcases hd : dedupBy (· == ·) l with _ | ⟨u, rest⟩
  · rw [hd] at hmem
    exact absurd hmem (List.not_mem_nil x)
  · rw [hd] at h hmem
    have hrest : rest = [] := by
      simp only [List.length_cons] at h
      exact List.eq_nil_of_length_eq_zero (by omega)
    subst hrest
    simpa using hmem

/-- Pointwise-sum split of a mapped list. -/
theorem sum_map_add {α : Type} (l : List α) (f g : α → ℕ) :
    (l.map (fun x => f x + g x)).sum = (l.map f).sum + (l.map g).sum := by
  induction l with
  | nil => simp
  | cons a t ih =>
    simp only [List.map_cons, List.sum_cons, ih]
    ring

/-- The indicator of a member of a duplicate-free list sums to 1. -/
theorem sum_indicator_one {a : ℤ} : ∀ {gids : List ℤ}, gids.Nodup →
    a ∈ gids → (gids.map (fun g => if a = g then 1 else 0)).sum = 1 := by
  intro gids
  induction gids with
  | nil => intro _ hm; exact absurd hm (List.not_mem_nil a)
  | cons g t ih =>
    intro hnd hm
    rcases List.mem_cons.mp hm with rfl | hmt
    · have hnott : a ∉ t := (List.nodup_cons.mp hnd).1
      simp only [List.map_cons, List.sum_cons, if_pos rfl]
      have hz : (t.map (fun g => if a = g then 1 else 0)).sum = 0 := by
        apply List.sum_eq_zero
        intro x hxm
        obtain ⟨g', hg', hval⟩ := List.mem_map.mp hxm
        rw [← hval, if_neg (fun hag : a = g' => hnott (hag.symm ▸ hg'))]
      rw [hz]
      simp
    · have hne : a ≠ g := fun h => (List.nodup_cons.mp hnd).1 (h ▸ hmt)
      simp only [List.map_cons, List.sum_cons, if_neg hne,
        ih (List.nodup_cons.mp hnd).2 hmt]

/-- If every trace's group id lies in a duplicate-free group list, the
per-group filter counts sum to the trace count. -/
theorem length_eq_sum_counts (ts : List TraceInfo) :
    ∀ (gids : List ℤ), gids.Nodup → (∀ t ∈ ts, t.groupId ∈ gids) →
    (gids.map (fun g => (ts.filter (fun t => t.groupId == g)).length)).sum =
      ts.length := by
  induction ts with
  | nil => intro gids _ _; simp
  | cons t ts ih =>
    intro gids hnd hmem
    have hm : t.groupId ∈ gids := hmem t (List.mem_cons_self _ _)
    have hrec := ih gids hnd (fun x hx => hmem x (List.mem_cons_of_mem _ hx))
    have hpt : ∀ g : ℤ, ((t :: ts).filter (fun x => x.groupId == g)).length =
        (if t.groupId = g then 1 else 0) +
          (ts.filter (fun x => x.groupId == g)).length := by
      intro g
      by_cases hg : t.groupId = g
      · simp [List.filter_cons, hg]
        omega
      · simp [List.filter_cons, hg]
    calc (gids.map (fun g => ((t :: ts).filter (fun x => x.groupId == g)).length)).sum
        = (gids.map (fun g => (if t.groupId = g then 1 else 0) +
            (ts.filter (fun x => x.groupId == g)).length)).sum := by
          rw [List.map_congr_left (fun g _ => hpt g)]
      _ = (gids.map (fun g => if t.groupId = g then 1 else 0)).sum +
            (gids.map (fun g => (ts.filter (fun x => x.groupId == g)).length)).sum :=
          sum_map_add gids _ _
      _ = (t :: ts).length := by
          rw [sum_indicator_one hnd hm, hrec]
          simp
          omega

/-- A list whose elements are all `u` sums to `length * u`. -/
theorem sum_eq_length_mul {l : List ℕ} {u : ℕ} (h : ∀ x ∈ l, x = u) :
    l.sum = l.length * u := by
  induction l with
  | nil => simp
  | cons a t ih =>
    simp only [List.sum_cons, List.length_cons]
    rw [h a (List.mem_cons_self _ _), ih (fun x hx => h x (List.mem_cons_of_mem _ hx))]
    ring

/-- The chunking fuel is irrelevant once it covers the list length. -/
theorem chunkAux_fuel_eq {k : ℕ} (hk : 0 < k) :
    ∀ (fuel fuel' : ℕ) (l : List α), l.length ≤ fuel → l.length ≤ fuel' →
      chunkAux k fuel l = chunkAux k fuel' l := by
  intro fuel
  induction fuel with
  | zero =>
    intro fuel' l h h'
    have hl : l = [] := List.eq_nil_of_length_eq_zero (Nat.le_zero.mp h)
    subst hl
    cases fuel' <;> rfl
  | succ f ih =>
    intro fuel' l h h'
    rcases l with _ | ⟨x, xs⟩
    · cases fuel' <;> rfl
    · rcases fuel' with _ | f'
      · simp at h'
      · show (x :: xs).take k :: chunkAux k f ((x :: xs).drop k) =
          (x :: xs).take k :: chunkAux k f' ((x :: xs).drop k)
        congr 1
        apply ih f'
        · simp only [List.length_drop, List.length_cons]
          simp only [List.length_cons] at h
          omega
        · simp only [List.length_drop, List.length_cons]
          simp only [List.length_cons] at h'
          omega

/-- Unfold one chunk. -/
theorem chunkSlices_cons {k : ℕ} (hk : 0 < k) (x : α) (xs : List α) :
    chunkSlices k (x :: xs) =
      (x :: xs).take k :: chunkSlices k ((x :: xs).drop k) := by
  show chunkAux k (xs.length + 1) (x :: xs) = _
  show (x :: xs).take k :: chunkAux k xs.length ((x :: xs).drop k) = _
  congr 1
  apply chunkAux_fuel_eq hk
  · simp only [List.length_drop, List.length_cons]
    omega
  · exact le_rfl

/-- Chunking a list of length `k * m` into chunks of size `k` yields exactly
`m` chunks of size `k` whose concatenation is the original list. -/
theorem chunkSlices_spec {k : ℕ} (hk : 0 < k) :
    ∀ (m : ℕ) (l : List α), l.length = k * m →
      (chunkSlices k l).length = m ∧
      (∀ c ∈ chunkSlices k l, c.length = k) ∧
      (chunkSlices k l).flatten = l := by
  intro m
  induction m with
  | zero =>
    intro l hl
    have : l = [] := List.eq_nil_of_length_eq_zero (by omega)
    subst this
    refine ⟨rfl, ?_, rfl⟩
    intro c hc
    exact absurd hc (List.not_mem_nil c)
  | succ m ih =>
    intro l hl
    rcases l with _ | ⟨x, xs⟩
    · rw [Nat.mul_succ] at hl
      simp at hl
      omega
    · rw [chunkSlices_cons hk]
      have hlen : (x :: xs).length = k * m + k := by rw [hl, Nat.mul_succ]
      have hdlen : ((x :: xs).drop k).length = k * m := by
        rw [List.length_drop, hlen]
        omega
      obtain ⟨hc, hs, hj⟩ := ih _ hdlen
      have htake : ((x :: xs).take k).length = k := by
        rw [List.length_take, hlen]
        omega
      refine ⟨by simp [hc], ?_, ?_⟩
      · intro c hcmem
        rcases List.mem_cons.mp hcmem with rfl | hmem
        · exact htake
        · exact hs c hmem
      · rw [List.flatten_cons, hj, List.take_append_drop]

/-- Claim C3: if the episodic heuristic accepts a decoded file (whose
metadata is coherent: one signal channel and one sample array per trace,
every trace's group id among the duplicate-free group ids, and the single
pre-conversion segment holding the flat array list `a`), then the episode
count is positive, `_parse_header` performs exactly the multi-segment
conversion, the conversion succeeds, and afterwards: the segment count is
`n_episodes`; the channel table is deduplicated to one entry per group (the
leading `n_groups` channels — the per-episode repeats are dropped, so the
new table size times `n_episodes` is the original size); and the flat array
list is partitioned into `n_episodes` contiguous groups, one per segment,
each of the new channel-table size, whose concatenation is exactly `a` (no
array lost or duplicated). -/
theorem claim_C3_episodic_reshape (r : HeavyResult) (a : List (List Frac))
    (h1 : safeToTreatAsEpisodic r.info r.header.signalChannels = .ok true)
    (h2 : r.header.signalChannels.length = r.info.traces.length)
    (h3 : ∀ t ∈ r.info.traces, t.groupId ∈ r.info.groupIds)
    (h4 : r.info.groupIds.Nodup)
    (h5 : r.rawSignals = [a])
    (h6 : a.length = r.header.signalChannels.length) :
    1 ≤ r.info.nEpisodes ∧
    finishHeader false r = convertToMultiSegment r ∧
    (∃ r2, convertToMultiSegment r = .ok r2) ∧
    (∀ r2, convertToMultiSegment r = .ok r2 →
      r2.header.nbSegment = [r.info.nEpisodes] ∧
      r2.header.signalChannels =
        r.header.signalChannels.take r.info.groupIds.length ∧
      r2.header.signalChannels.length = r.info.groupIds.length ∧
      r2.header.signalChannels.length * r.info.nEpisodes.toNat =
        r.header.signalChannels.length ∧
      r2.rawSignals.length = r.info.nEpisodes.toNat ∧
      (∀ seg ∈ r2.rawSignals, seg.length = r2.header.signalChannels.length) ∧
      r2.rawSignals.flatten = a) := by
  have hfin : finishHeader false r = convertToMultiSegment r := by
    unfold finishHeader
    simp [Bind.bind, Except.bind, h1]
  unfold safeToTreatAsEpisodic at h1
  by_cases hver : r.info.formatVer < 3
  · rw [if_pos hver] at h1
    injection h1 with h1
    cases h1
  rw [if_neg hver] at h1
  dsimp only at h1
  by_cases hd1 : (dedupBy (· == ·) ((r.info.groupIds.map (fun g =>
      (r.info.traces.filter (fun t => t.groupId == g)).map (·.yIndex))).map
      (fun l => l.length))).length ≠ 1
  · rw [if_pos hd1] at h1
    injection h1 with h1
    cases h1
  rw [if_neg hd1] at h1
  have hlen1 := not_not.mp hd1
  by_cases hd2 : Int.ofNat ((dedupBy (· == ·) ((r.info.groupIds.map (fun g =>
      (r.info.traces.filter (fun t => t.groupId == g)).map (·.yIndex))).map
      (fun l => l.length))).headD 0) ≠ r.info.nEpisodes
  · rw [if_pos hd2] at h1
    injection h1 with h1
    cases h1
  rw [if_neg hd2] at h1
  have hEq := not_not.mp hd2
  obtain ⟨flags, hflags, -⟩ := except_ok_of_bind h1
  have hnonempty : ∀ colIdxs ∈ (r.info.groupIds.map (fun g =>
      (r.info.traces.filter (fun t => t.groupId == g)).map (·.yIndex))),
      colIdxs.isEmpty = false := by
    intro cIdxs hcm
    obtain ⟨fl, hfl⟩ := exMapM_ok_forall _ _ flags hflags cIdxs hcm
    by_cases he : cIdxs.isEmpty = true
    · rw [if_pos he] at hfl
      cases hfl
    · simpa using he
  have hallu := dedupBy_length_one hlen1
  have hcounts2 : ((r.info.groupIds.map (fun g =>
      (r.info.traces.filter (fun t => t.groupId == g)).map (·.yIndex))).map
      (fun l => l.length)) = r.info.groupIds.map (fun g =>
      (r.info.traces.filter (fun t => t.groupId == g)).length) := by
    rw [List.map_map]
    simp [Function.comp, List.length_map]
  have hsum := length_eq_sum_counts r.info.traces r.info.groupIds h4 h3
  have hu := hallu
  have hallu2 : ∀ c ∈ r.info.groupIds.map (fun g =>
      (r.info.traces.filter (fun t => t.groupId == g)).length),
      c = ((dedupBy (· == ·) ((r.info.groupIds.map (fun g =>
        (r.info.traces.filter (fun t => t.groupId == g)).map (·.yIndex))).map
        (fun l => l.length))).headD 0) := by
    rw [← hcounts2]
    exact hallu
  have hsumu : (r.info.groupIds.map (fun g =>
      (r.info.traces.filter (fun t => t.groupId == g)).length)).sum =
      r.info.groupIds.length * ((dedupBy (· == ·) ((r.info.groupIds.map (fun g =>
        (r.info.traces.filter (fun t => t.groupId == g)).map (·.yIndex))).map
        (fun l => l.length))).headD 0) := by
    have hsl := sum_eq_length_mul hallu2
    rw [List.length_map] at hsl
    exact hsl
  have hGpos : 1 ≤ r.info.groupIds.length := by
    rcases hgids : r.info.groupIds with _ | ⟨g0, gs⟩
    · rw [hgids] at hlen1
      simp [dedupBy, dedupByAux] at hlen1
    · simp
  have hupos : 1 ≤ ((dedupBy (· == ·) ((r.info.groupIds.map (fun g =>
      (r.info.traces.filter (fun t => t.groupId == g)).map (·.yIndex))).map
      (fun l => l.length))).headD 0) := by
    obtain ⟨g0, hg0⟩ := List.exists_mem_of_length_pos
      (show 0 < r.info.groupIds.length by omega)
    have hcmem : ((r.info.traces.filter (fun t => t.groupId == g0)).map
        (·.yIndex)) ∈ (r.info.groupIds.map (fun g =>
        (r.info.traces.filter (fun t => t.groupId == g)).map (·.yIndex))) :=
      List.mem_map_of_mem _ hg0
    have hne := hnonempty _ hcmem
    have hlc : ((r.info.traces.filter (fun t => t.groupId == g0)).map
        (·.yIndex)).length ∈ ((r.info.groupIds.map (fun g =>
        (r.info.traces.filter (fun t => t.groupId == g)).map (·.yIndex))).map
        (fun l => l.length)) :=
      List.mem_map_of_mem _ hcmem
    have heq := hu _ hlc
    rw [← heq]
    have hnn : ((r.info.traces.filter (fun t => t.groupId == g0)).map
        (·.yIndex)) ≠ [] := by
      intro hnil
      rw [hnil] at hne
      simp at hne
    have := List.length_pos.mpr hnn
    omega
  have htoNat : r.info.nEpisodes.toNat = ((dedupBy (· == ·)
      ((r.info.groupIds.map (fun g =>
        (r.info.traces.filter (fun t => t.groupId == g)).map (·.yIndex))).map
        (fun l => l.length))).headD 0) := by
    rw [← hEq]
    rfl
  have hnEpos : 1 ≤ r.info.nEpisodes := by
    rw [← hEq]
    omega
  have hchlen : r.header.signalChannels.length =
      r.info.groupIds.length * r.info.nEpisodes.toNat := by
    rw [h2, ← hsum, hsumu, htoNat]
  have hdvd : r.info.nEpisodes.toNat ∣ r.header.signalChannels.length :=
    ⟨r.info.groupIds.length, by rw [hchlen, Nat.mul_comm]⟩
  have hlenpos : r.header.signalChannels.length ≠ 0 := by
    rw [hchlen]
    have := Nat.mul_pos (by omega : 0 < r.info.groupIds.length)
      (by omega : 0 < r.info.nEpisodes.toNat)
    omega
  have hcond : ¬(r.info.nEpisodes ≤ 0 ∨ r.header.signalChannels.length = 0 ∨
      ¬(r.info.nEpisodes.toNat ∣ r.header.signalChannels.length)) := by
    push_neg
    exact ⟨by omega, hlenpos, hdvd⟩
  have hk : r.header.signalChannels.length / r.info.nEpisodes.toNat =
      r.info.groupIds.length := by
    rw [hchlen]
    exact Nat.mul_div_cancel _ (by omega)
  have hconv : ∀ r2, convertToMultiSegment r = .ok r2 →
      r2.header.nbSegment = [r.info.nEpisodes] ∧
      r2.header.signalChannels = r.header.signalChannels.take
        (r.header.signalChannels.length / r.info.nEpisodes.toNat) ∧
      r2.rawSignals = chunkSlices (r.header.signalChannels.take
        (r.header.signalChannels.length / r.info.nEpisodes.toNat)).length a := by
    intro r2 hc
    unfold convertToMultiSegment at hc
    dsimp only at hc
    rw [if_neg hcond, h5] at hc
    injection hc with hc
    exact ⟨by rw [← hc], by rw [← hc], by rw [← hc]⟩
  have hex : ∃ r2, convertToMultiSegment r = .ok r2 := by
    unfold convertToMultiSegment
    dsimp only
    rw [if_neg hcond, h5]
    exact ⟨_, rfl⟩
  have htklen : (r.header.signalChannels.take
      (r.header.signalChannels.length / r.info.nEpisodes.toNat)).length =
      r.info.groupIds.length := by
    rw [hk, List.length_take, hchlen]
    have : r.info.groupIds.length ≤
        r.info.groupIds.length * r.info.nEpisodes.toNat :=
      Nat.le_mul_of_pos_right _ (by omega)
    omega
  have halen : a.length = r.info.groupIds.length * r.info.nEpisodes.toNat := by
    rw [h6, hchlen]
  obtain ⟨hcc, hcs, hcj⟩ := chunkSlices_spec (k := r.info.groupIds.length)
    (by omega) r.info.nEpisodes.toNat a halen
  refine ⟨hnEpos, hfin, hex, ?_⟩
  intro r2 hc
  obtain ⟨hseg, hch, hrs⟩ := hconv r2 hc
  refine ⟨hseg, by rw [hch, hk], by rw [hch, htklen], ?_, ?_, ?_, ?_⟩
  · rw [hch, htklen, ← hchlen]
  · rw [hrs, htklen, hcc]
  · intro seg hseg2
    rw [hrs, htklen] at hseg2
    rw [hch, htklen]
    exact hcs seg hseg2
  · rw [hrs, htklen, hcj]

/-- A signal channel of the episodic witness (name decides the group's
shared parameters; the id is the unique per-column identifier). -/
def wEpCh (i : ℕ) (nm : ℕ) : SigChannel :=
  { name := [nm], channelId := i, samplingRate := ⟨1000, 1⟩, dtypeCode := 104,
    units := [], gain := 1, offset := 0, groupId := 0 }

/-- The episodic witness's flat sample-array list: 6 columns. -/
def wEpA : List (List Frac) :=
  [[⟨1, 1⟩], [⟨2, 1⟩], [⟨3, 1⟩], [⟨4, 1⟩], [⟨5, 1⟩], [⟨6, 1⟩]]

/-- An episodic decode result: 2 groups, 3 episodes, 6 traces laid out
episode-major, uniform per-group channel parameters. -/
def wEpisodic : HeavyResult where
  header :=
    { nbBlock := 1
      nbSegment := [1]
      signalChannels :=
        [wEpCh 1 65, wEpCh 2 66, wEpCh 3 65, wEpCh 4 66, wEpCh 5 65,
          wEpCh 6 66] }
  tStart := ⟨0, 1⟩
  samplingPeriod := ⟨1, 1000⟩
  rawSignals := [wEpA]
  info :=
    { formatVer := 4
      nEpisodes := 3
      groupIds := [0, 1]
      traces := [⟨1, 0⟩, ⟨2, 1⟩, ⟨3, 0⟩, ⟨4, 1⟩, ⟨5, 0⟩, ⟨6, 1⟩] }

/-- `wEpisodic` after the multi-segment conversion: 3 segments of the
2-channel deduplicated table. -/
def wEpisodicOut : HeavyResult where
  header :=
    { nbBlock := 1
      nbSegment := [3]
      signalChannels := [wEpCh 1 65, wEpCh 2 66] }
  tStart := ⟨0, 1⟩
  samplingPeriod := ⟨1, 1000⟩
  rawSignals :=
    [[[⟨1, 1⟩], [⟨2, 1⟩]], [[⟨3, 1⟩], [⟨4, 1⟩]], [[⟨5, 1⟩], [⟨6, 1⟩]]]
  info :=
    { formatVer := 4
      nEpisodes := 3
      groupIds := [0, 1]
      traces := [⟨1, 0⟩, ⟨2, 1⟩, ⟨3, 0⟩, ⟨4, 1⟩, ⟨5, 0⟩, ⟨6, 1⟩] }

/-- Witness for claim C3: the concrete accepted episodic layout converts to
3 segments of the 2-entry deduplicated channel table, partitioning the 6
sample arrays without loss. -/
theorem claim_C3_witness :
    finishHeader false wEpisodic = convertToMultiSegment wEpisodic ∧
    convertToMultiSegment wEpisodic = .ok wEpisodicOut ∧
    wEpisodicOut.header.nbSegment = [3] ∧
    wEpisodicOut.header.signalChannels.length = 2 ∧
    wEpisodicOut.rawSignals.length = 3 ∧
    wEpisodicOut.rawSignals.flatten = wEpA := by
  have h := claim_C3_episodic_reshape wEpisodic wEpA (by decide) (by decide)
    (by decide) (by decide) rfl (by decide)
  have hconv : convertToMultiSegment wEpisodic = .ok wEpisodicOut := by decide
  obtain ⟨-, hfin, -, hprops⟩ := h
  obtain ⟨hseg, -, hlen, -, hcnt, -, hjoin⟩ := hprops wEpisodicOut hconv
  refine ⟨hfin, hconv, ?_, ?_, ?_, hjoin⟩
  · rw [hseg]
    decide
  · rw [hlen]
    decide
  · rw [hcnt]
    decide

/-- The full decoded result of the witness file `wBytesV1`. -/
def wResultV1 : HeavyResult :=
  { header := { nbBlock := 1, nbSegment := [1], signalChannels := [wChanV1] },
    tStart := ⟨0, 2 ^ 149⟩, samplingPeriod := ⟨2 ^ 172, 2 ^ 172⟩,
    rawSignals := [[[]]],
    info := { formatVer := 1, nEpisodes := 0, groupIds := [], traces := [] } }

/-- Witness for claim C1: the concrete version-1 file parses successfully;
its `t_start` and `sampling_period` are exactly column 0's first value and
increment, and the channel table is exactly column 1. -/
theorem claim_C1_witness :
    parseAxograph false wBytesV1 = .ok wResultV1 ∧
    col0TimeParams 1 ⟨wBytesV1, 8⟩ =
      .ok (wResultV1.tStart, wResultV1.samplingPeriod) ∧
    wResultV1.header.signalChannels.map (·.channelId) = [1] := by
  have hpar : parseAxograph false wBytesV1 = .ok wResultV1 := by decide
  have hh : readHeaderIds ⟨wBytesV1, 0⟩ = .ok (1, 2, ⟨wBytesV1, 8⟩) := by decide
  have h := claim_C1_time_axis false wBytesV1 wResultV1 1 2 ⟨wBytesV1, 8⟩ hh hpar
  refine ⟨hpar, h.1, ?_⟩
  have h3 := h.2.2 wResultV1 (by decide)
  rw [h3]
  decide

end Axograph
